import Mathlib

namespace Dbgrs

/-!
Verification of the dbgrs debugger core against its specification.

The Rust sources are embedded shallowly: pure functions become Lean
functions, `u64`/`u32` arithmetic is `Nat` with explicit `% 2^64` where
wrap-around matters, fallible code returns `Except String`, and code that
can `panic!` returns a `RunResult` with a dedicated panic outcome.
External effects (OS memory reads, PDB files) are abstracted as oracle
parameters, mirroring the trait objects of the source.
-/

/-- Outcome of running a piece of Rust code that returns `Result<A, E>` but
may also `panic!`: `ok`, `err` (an `Err` value) or `panic`. -/
inductive RunResult (α : Type) where
  | ok (a : α)
  | err (e : String)
  | panic (msg : String)
deriving Repr, DecidableEq

/-- Sequencing for `RunResult`, matching Rust's `?` plus panic propagation. -/
def RunResult.bind {α β : Type} : RunResult α → (α → RunResult β) → RunResult β
  | .ok a, f => f a
  | .err e, _ => .err e
  | .panic m, _ => .panic m

/-- Two to the sixty-fourth: the modulus of `u64` arithmetic. -/
def W64 : Nat := 2 ^ 64

/-- Wrapping `u64` addition. -/
def wadd (a b : Nat) : Nat := (a + b) % W64

/-- Wrapping `u64` subtraction: `a - b` modulo `2^64`. -/
def wsub (a b : Nat) : Nat := (a + (W64 - b % W64)) % W64

/-! ## CPU context

`CONTEXT` models the fields of the Windows x64 `CONTEXT` record that the
debugger reads and writes: the sixteen general-purpose registers, `Rip`,
`EFlags`, and the debug registers. -/

structure CONTEXT where
  rax : Nat := 0
  rcx : Nat := 0
  rdx : Nat := 0
  rbx : Nat := 0
  rsp : Nat := 0
  rbp : Nat := 0
  rsi : Nat := 0
  rdi : Nat := 0
  r8 : Nat := 0
  r9 : Nat := 0
  r10 : Nat := 0
  r11 : Nat := 0
  r12 : Nat := 0
  r13 : Nat := 0
  r14 : Nat := 0
  r15 : Nat := 0
  rip : Nat := 0
  eflags : Nat := 0
  dr0 : Nat := 0
  dr1 : Nat := 0
  dr2 : Nat := 0
  dr3 : Nat := 0
  dr6 : Nat := 0
  dr7 : Nat := 0
deriving Repr, DecidableEq

/-- The all-zero context (Rust `std::mem::zeroed`). -/
def CONTEXT.zero : CONTEXT := {}

/-! ## Breakpoint manager (breakpoint.rs)

Bit-twiddling helpers `set_bits`/`get_bit`, the DR7 layout constants, and
the breakpoint list operations.  `apply_breakpoints` iterates over all
live threads performing a read-modify-write of each thread context;
`apply_breakpoints_thread` is the per-thread modification between
`GetThreadContext` and `SetThreadContext` (the loop over slots 0..4 plus
the resume-flag update), which is the part the claims speak about. -/

def DR7_LEN_BIT : List Nat := [19, 23, 27, 31]

def DR7_RW_BIT : List Nat := [17, 21, 25, 29]

def DR7_LE_BIT : List Nat := [0, 2, 4, 6]

def DR7_LEN_SIZE : Nat := 2

def DR7_RW_SIZE : Nat := 2

def EFLAG_RF : Nat := 16

structure Breakpoint where
  addr : Nat
  id : Nat
deriving Repr, DecidableEq

/-- `set_bits` from breakpoint.rs, on a `width`-bit integer (`width` is 64
for `Dr7`, 32 for `EFlags`): clear the `bit_count` bits ending at
`start_bit` and or in `set_val` there. -/
def set_bits (width val set_val start_bit bit_count : Nat) : Nat :=
  let mask := ((2 ^ width - 1) <<< (width - bit_count)) % 2 ^ width
  let mask := mask >>> (width - 1 - start_bit)
  let inv_mask := (2 ^ width - 1) ^^^ mask
  (val &&& inv_mask) ||| ((set_val <<< (start_bit + 1 - bit_count)) % 2 ^ width)

/-- `get_bit` from breakpoint.rs. -/
def get_bit (val bit_index : Nat) : Bool := (val &&& (1 <<< bit_index)) != 0

/-- `BreakpointManager::get_free_id`: first id in `[0,3]` not in use;
panics when all four are taken. -/
def get_free_id (bps : List Breakpoint) : RunResult Nat :=
  match (List.range 4).find? (fun i => (bps.find? (fun x => x.id = i)).isNone) with
  | some i => .ok i
  | none => .panic "Too many breakpoints!"

/-- `BreakpointManager::add_breakpoint`: append with the allocated id and
re-sort by id (Rust `sort_by` is stable; insertion sort matches). -/
def add_breakpoint (bps : List Breakpoint) (addr : Nat) : RunResult (List Breakpoint) :=
  (get_free_id bps).bind fun id =>
    .ok (List.insertionSort (fun a b => a.id ≤ b.id) (bps ++ [⟨addr, id⟩]))

/-- `BreakpointManager::clear_breakpoint`: `retain(|x| x.id != id)`. -/
def clear_breakpoint (bps : List Breakpoint) (id : Nat) : List Breakpoint :=
  bps.filter (fun x => x.id != id)

/-- The slot loop of `apply_breakpoints` (`for idx in 0..4`, given as the
list of remaining indices): program slot `idx` when
`breakpoints.len() > idx`, otherwise clear that slot's local enable bit
and `break` (the remaining indices are dropped). -/
def apply_bp_slots (bps : List Breakpoint) (ctx : CONTEXT) : List Nat → CONTEXT
  | [] => ctx
  | idx :: rest =>
    if bps.length > idx then
      let bp := bps.getD idx ⟨0, 0⟩
      let ctx := { ctx with dr7 := set_bits 64 ctx.dr7 0 (DR7_LEN_BIT.getD idx 0) DR7_LEN_SIZE }
      let ctx := { ctx with dr7 := set_bits 64 ctx.dr7 0 (DR7_RW_BIT.getD idx 0) DR7_RW_SIZE }
      let ctx := { ctx with dr7 := set_bits 64 ctx.dr7 1 (DR7_LE_BIT.getD idx 0) 1 }
      let ctx := match idx with
        | 0 => { ctx with dr0 := bp.addr }
        | 1 => { ctx with dr1 := bp.addr }
        | 2 => { ctx with dr2 := bp.addr }
        | 3 => { ctx with dr3 := bp.addr }
        | _ => ctx
      apply_bp_slots bps ctx rest
    else
      { ctx with dr7 := set_bits 64 ctx.dr7 0 (DR7_LE_BIT.getD idx 0) 1 }

/-- Per-thread body of `BreakpointManager::apply_breakpoints`: the context
modification between `GetThreadContext` and `SetThreadContext` for one
thread (`is_resume_thread` tells whether it is the resumed thread). -/
def apply_breakpoints_thread (bps : List Breakpoint) (is_resume_thread : Bool)
    (ctx : CONTEXT) : CONTEXT :=
  let ctx := apply_bp_slots bps ctx (List.range 4)
  if is_resume_thread then
    { ctx with eflags := set_bits 32 ctx.eflags 1 EFLAG_RF 1 }
  else ctx

/-! ## Modules, process and the symbol model (module.rs, process.rs)

PE structures are embedded field-for-field as far as the debugger reads
them.  The external PDB library is abstracted: a `PdbHandle` carries the
outcomes of the PDB queries the code performs (global PUBLIC records with
their `to_rva` translations, PROCEDURE records, and whether
`pdb.address_map()` succeeds). -/

structure DataDirectory where
  VirtualAddress : Nat
  Size : Nat
deriving Repr, DecidableEq

inductive ExportTarget where
  | rva (addr : Nat)
  | forwarder (name : String)
deriving Repr, DecidableEq

structure Export where
  name : Option String
  ordinal : Nat
  target : ExportTarget
deriving Repr, DecidableEq

/-- `impl ToString for Export`. -/
def Export.to_string (e : Export) : String :=
  match e.name with
  | some s => s
  | none => "Ordinal" ++ toString e.ordinal

structure PdbInfo where
  signature : Nat
  guid : Nat
  age : Nat
deriving Repr, DecidableEq

/-- A parsed PUBLIC record of the global symbol stream: whether it is
marked as a function, the result of translating its offset through the
address map (`none` models `to_rva` failure), and its name. -/
structure SymRec where
  function : Bool
  rva : Option Nat
  name : String
deriving Repr, DecidableEq

/-- A PROCEDURE record of a PDB compilation unit. -/
structure PdbProc where
  name : String
  rva : Option Nat
deriving Repr, DecidableEq

/-- Abstraction of an opened PDB: `globals` is the outcome of
`pdb.global_symbols()` (`none` models an `Err`), `addrMapOk` whether
`pdb.address_map()` succeeds, `procs` the PROCEDURE records reachable via
`debug_information()`. -/
structure PdbHandle where
  globals : Option (List SymRec)
  addrMapOk : Bool
  procs : List PdbProc
deriving Repr, DecidableEq

structure Module where
  name : String
  address : Nat
  size : Nat
  exports : List Export
  pdb_name : Option String := none
  pdb_info : Option PdbInfo := none
  pdb : Option PdbHandle := none
  /-- Modelled from the spec: the Module's "optional AddressMap" (§3 data
  model).  The field is referenced by name_resolution.rs and source.rs but
  the `Module` struct in the module.rs snapshot does not declare it. -/
  address_map : Option Unit := none
  dataDirs : List DataDirectory := []
deriving Repr, DecidableEq

structure Process where
  module_list : List Module
  thread_list : List Nat
deriving Repr, DecidableEq

/-- `Module::contains_address`. -/
def contains_address (m : Module) (address : Nat) : Bool :=
  decide (m.address ≤ address) && decide (address < m.address + m.size)

/-- `Module::get_data_directory` (the data directory array lives in the
optional header; missing entries read as zero). -/
def Module.get_data_directory (m : Module) (entry : Nat) : DataDirectory :=
  m.dataDirs.getD entry ⟨0, 0⟩

/-- `Process::get_containing_module_mut`: first module in load order whose
range contains the address. -/
def get_containing_module (p : Process) (address : Nat) : Option Module :=
  p.module_list.find? (fun m => contains_address m address)

/-- Rust `to_lowercase` restricted to ASCII, on the character list. -/
def str_to_lowercase (s : String) : String := ⟨s.toList.map Char.toLower⟩

/-- `name.rsplitn(2, '\\').next().unwrap_or(name)`: the suffix of `name`
after the last backslash. -/
def trimmed_name (s : String) : String :=
  ⟨(s.toList.reverse.takeWhile (fun c => c ≠ '\\')).reverse⟩

/-- The `rsplitn(2, '.')` step of `get_module_by_name_mut`: strip a
trailing extension (everything from the last dot) when a dot exists. -/
def trim_extension (s : String) : String :=
  if s.toList.contains '.' then
    ⟨((s.toList.reverse.dropWhile (fun c => c ≠ '.')).drop 1).reverse⟩
  else s

/-- Loop of `Process::get_module_by_name_mut` with the two pending
fallback matches as accumulators. -/
def get_module_by_name_go (module_name : String) :
    List Module → Option Module → Option Module → Option Module
  | [], t, tn => t.or tn
  | m :: rest, t, tn =>
    if m.name = module_name then some m
    else
      let trimmed := trimmed_name m.name
      if t.isNone ∧ str_to_lowercase trimmed = str_to_lowercase module_name then
        get_module_by_name_go module_name rest (some m) tn
      else if tn.isNone then
        let trimmed_noext := trim_extension trimmed
        if str_to_lowercase trimmed_noext = str_to_lowercase module_name then
          get_module_by_name_go module_name rest t (some m)
        else get_module_by_name_go module_name rest t tn
      else get_module_by_name_go module_name rest t tn

/-- `Process::get_module_by_name_mut`: exact name match, else
case-insensitive after stripping a path prefix, else additionally
stripping a trailing extension. -/
def get_module_by_name (p : Process) (module_name : String) : Option Module :=
  get_module_by_name_go module_name p.module_list none none

/-! ## Name resolution (name_resolution.rs) -/

/-- Loop of `resolve_export_in_module`: first named export whose name
matches and whose target is a direct RVA (a matching forwarder does not
return — the scan continues). -/
def resolve_export_in_module : List Export → String → Option Nat
  | [], _ => none
  | e :: rest, func =>
    match e.name, e.target with
    | some export_name, .rva export_addr =>
      if export_name = func then some export_addr
      else resolve_export_in_module rest func
    | _, _ => resolve_export_in_module rest func

/-- Procedure-walk of `resolve_symbol_name_in_module`: first PROCEDURE
record with the requested name, translated through the address map. -/
def resolve_symbol_procs (module_address : Nat) (func : String) :
    List PdbProc → Except String (Option Nat)
  | [] => .ok none
  | pr :: rest =>
    if pr.name = func then
      match pr.rva with
      | some rva => .ok (some (module_address + rva))
      | none => .error "Couldn't convert procedure offset to RVA"
    else resolve_symbol_procs module_address func rest

/-- `resolve_symbol_name_in_module`. -/
def resolve_symbol_name_in_module (m : Module) (func : String) :
    Except String (Option Nat) :=
  match m.pdb with
  | none => .error "No PDB loaded"
  | some pdb =>
    match m.address_map with
    | none => .error "No address map available"
    | some _ => resolve_symbol_procs m.address func pdb.procs

/-- `resolve_function_in_module`: exports first, then PDB procedures
(`unwrap_or(None)` turns a PDB error into no result). -/
def resolve_function_in_module (m : Module) (func : String) : Option Nat :=
  match resolve_export_in_module m.exports func with
  | some a => some a
  | none =>
    match resolve_symbol_name_in_module m func with
    | .ok o => o
    | .error _ => none

/-- `resolve_name_to_address`: only fully qualified `module!name` is
supported; a bare name errors with "Not yet implemented". -/
def resolve_name_to_address (sym : String) (p : Process) : Except String Nat :=
  match sym.toList.findIdx? (fun c => c = '!') with
  | none => .error "Not yet implemented"
  | some pos =>
    let module_name : String := ⟨sym.toList.take pos⟩
    let func_name : String := ⟨sym.toList.drop (pos + 1)⟩
    match get_module_by_name p module_name with
    | some module =>
      match resolve_function_in_module module func_name with
      | some addr => .ok addr
      | none => .error ("Could not find " ++ func_name ++ " in module " ++ module_name)
    | none => .error ("Could not find module " ++ module_name)

/-! ## Registers and expression evaluation (registers.rs, eval.rs) -/

/-- `get_register`: case-insensitive register lookup. -/
def get_register (context : CONTEXT) (reg_name : String) : Except String Nat :=
  match str_to_lowercase reg_name with
  | "rax" => .ok context.rax
  | "rbx" => .ok context.rbx
  | "rcx" => .ok context.rcx
  | "rdx" => .ok context.rdx
  | "rsi" => .ok context.rsi
  | "rdi" => .ok context.rdi
  | "rip" => .ok context.rip
  | "rsp" => .ok context.rsp
  | "rbp" => .ok context.rbp
  | "r8" => .ok context.r8
  | "r9" => .ok context.r9
  | "r10" => .ok context.r10
  | "r11" => .ok context.r11
  | "r12" => .ok context.r12
  | "r13" => .ok context.r13
  | "r14" => .ok context.r14
  | "r15" => .ok context.r15
  | "eflags" => .ok context.eflags
  | _ => .error "Unrecognized register"

/-- The expression grammar of command.rs (`Number`, `Symbol`, `Add`). -/
inductive EvalExpr where
  | Number (x : Nat)
  | Symbol (sym : String)
  | Add (x : EvalExpr) (y : EvalExpr)
deriving Repr, DecidableEq

structure EvalContext where
  process : Process
  register_context : CONTEXT

/-- `evaluate_expression` from eval.rs.  A symbol beginning with `@` is
tried as a register; when `get_register` fails the code falls through to
`resolve_name_to_address` on the whole symbol. -/
def evaluate_expression (expr : EvalExpr) (context : EvalContext) : Except String Nat :=
  match expr with
  | .Number x => .ok x
  | .Add x y =>
    match evaluate_expression x context with
    | .error e => .error e
    | .ok a =>
      match evaluate_expression y context with
      | .error e => .error e
      | .ok b => .ok (wadd a b)
  | .Symbol sym =>
    if sym.toList.headD ' ' = '@' then
      match get_register context.register_context ⟨sym.toList.drop 1⟩ with
      | .ok val => .ok val
      | .error _ => resolve_name_to_address sym context.process
    else resolve_name_to_address sym context.process

/-- Concrete module used in the C9 counterexample: its display name starts
with `@`, so an `@`-symbol that is not a register can fall through to a
successful module!name resolution. -/
def atModule : Module :=
  { name := "@m", address := 0x140000000, size := 0x1000,
    exports := [{ name := some "f", ordinal := 1, target := .rva 0x140001234 }] }

/-! ## Address-to-name resolution (name_resolution.rs) -/

inductive AddressMatch where
  | nullMatch
  | exportMatch (e : Export)
  | publicMatch (name : String)
deriving Repr, DecidableEq

/-- `AddressMatch::is_none`. -/
def AddressMatch.is_none : AddressMatch → Bool
  | .nullMatch => true
  | _ => false

/-- Uppercase hexadecimal digits of `n` (Rust `{:X}` formatting), with a
structural fuel so the kernel can evaluate it. -/
def hexDigitsAux : Nat → Nat → List Char
  | 0, _ => []
  | fuel + 1, n =>
    if n < 16 then ["0123456789ABCDEF".toList.getD n '0']
    else hexDigitsAux fuel (n / 16) ++ ["0123456789ABCDEF".toList.getD (n % 16) '0']

def toHexUpper (n : Nat) : String := ⟨hexDigitsAux (n + 1) n⟩

/-- The output formatting of `resolve_address_to_name`: `module!symbol`
when the offset is zero, else `module!symbol+0xOFFSET`. -/
def format_sym (module_name sym : String) (offset : Nat) : String :=
  if offset = 0 then module_name ++ "!" ++ sym
  else module_name ++ "!" ++ sym ++ "+0x" ++ toHexUpper offset

/-- The export loop of `resolve_address_to_name`: keep the direct-RVA
export with the highest address `≤ address` (strict improvement, so the
first export wins ties among exports); forwarders are skipped. -/
def export_scan (address : Nat) : List Export → AddressMatch × Nat → AddressMatch × Nat
  | [], acc => acc
  | e :: rest, (closest, closest_addr) =>
    match e.target with
    | .rva export_addr =>
      if export_addr ≤ address ∧ (closest.is_none = true ∨ closest_addr < export_addr) then
        export_scan address rest (.exportMatch e, export_addr)
      else export_scan address rest (closest, closest_addr)
    | .forwarder _ => export_scan address rest (closest, closest_addr)

/-- The PDB loop of `resolve_address_to_name`: PUBLIC records marked as
functions, translated to an address via `to_rva` (`unwrap_or_default`, so
a failed translation counts as RVA 0); a non-strict improvement replaces
the current match, so the PDB wins ties. -/
def public_scan (module_address address : Nat) :
    List SymRec → AddressMatch × Nat → AddressMatch × Nat
  | [], acc => acc
  | s :: rest, (closest, closest_addr) =>
    if s.function then
      let global_addr := module_address + (s.rva.getD 0)
      if global_addr ≤ address ∧ (closest.is_none = true ∨ closest_addr ≤ global_addr) then
        public_scan module_address address rest (.publicMatch s.name, global_addr)
      else public_scan module_address address rest (closest, closest_addr)
    else public_scan module_address address rest (closest, closest_addr)

/-- Body of `resolve_address_to_name` once the containing module is
found: the export scan, then the PDB PUBLIC scan when a PDB is attached
and both `global_symbols()` and `address_map()` succeed, then the
formatting of the best match. -/
def resolve_in_module (address : Nat) (m : Module) : Option String :=
  let s1 := export_scan address m.exports (.nullMatch, 0)
  let s2 :=
    match m.pdb with
    | some pdb =>
      match pdb.globals, pdb.addrMapOk with
      | some syms, true => public_scan m.address address syms s1
      | _, _ => s1
    | none => s1
  match s2 with
  | (.exportMatch e, closest_addr) =>
    some (format_sym m.name e.to_string (address - closest_addr))
  | (.publicMatch n, closest_addr) =>
    some (format_sym m.name n (address - closest_addr))
  | (.nullMatch, _) => none

/-- `resolve_address_to_name` from name_resolution.rs. -/
def resolve_address_to_name (address : Nat) (p : Process) : Option String :=
  match get_containing_module p address with
  | none => none
  | some m => resolve_in_module address m

/-- Spec-side candidate list of a module's direct-RVA exports: pairs of
(stored address, display name).  Follows the spec's words: "Scan its
exports, keeping the highest RVA ≤ query whose target is an RVA
(forwarders are ignored)". -/
def spec_export_cands (exports : List Export) : List (Nat × String) :=
  exports.filterMap (fun e =>
    match e.target with
    | .rva a => some (a, e.to_string)
    | .forwarder _ => none)

/-- Spec-side candidate list of the PDB PUBLIC function symbols of a
module, translated to addresses through the address map.  Follows the
spec's words: "scan its global symbol table for PUBLIC records that are
marked as functions, translate each to an RVA through the PDB address
map" (a failed translation is the code's `unwrap_or_default`, RVA 0). -/
def spec_public_cands (module_address : Nat) (syms : List SymRec) : List (Nat × String) :=
  syms.filterMap (fun s =>
    if s.function then some (module_address + s.rva.getD 0, s.name) else none)

/-- The PUBLIC candidates actually visible to the scan: empty unless a PDB
is attached and both `global_symbols()` and `address_map()` succeed. -/
def spec_public_candidates (m : Module) : List (Nat × String) :=
  match m.pdb with
  | some pdb =>
    match pdb.globals, pdb.addrMapOk with
    | some syms, true => spec_public_cands m.address syms
    | _, _ => []
  | none => []

/-- All candidates of the address-to-name search for one module. -/
def spec_candidates (m : Module) : List (Nat × String) :=
  spec_export_cands m.exports ++ spec_public_candidates m

/-- The PUBLIC records actually scanned by `resolve_address_to_name`:
those of the attached PDB when `global_symbols()` and `address_map()`
both succeed, and nothing otherwise. -/
def visible_syms (m : Module) : List SymRec :=
  match m.pdb with
  | some pdb =>
    match pdb.globals, pdb.addrMapOk with
    | some syms, true => syms
    | _, _ => []
  | none => []

/-- Concrete module for the C7 witness: an export and a PDB PUBLIC
function symbol that resolve to the same address, so the PDB name must
win. -/
def hello_module : Module :=
  { name := "hello", address := 0x140000000, size := 0x3000,
    exports := [{ name := some "main", ordinal := 1, target := .rva 0x140001000 }],
    pdb := some { globals := some [{ function := true, rva := some 0x1000, name := "pmain" }],
                  addrMapOk := true, procs := [] } }

def hello_process : Process := ⟨[hello_module], []⟩

/-! ## Stack unwinding (stack.rs)

Memory reads go through the `MemorySource` trait object; each
monomorphized read of stack.rs (`read_memory_data::<u64>`,
`read_memory_full_array::<RUNTIME_FUNCTION>`, `read_memory_data::<UNWIND_INFO>`,
`read_memory_full_array::<u16>`) is abstracted as one oracle field. -/

structure RUNTIME_FUNCTION where
  BeginAddress : Nat
  EndAddress : Nat
  UnwindInfo : Nat
deriving Repr, DecidableEq, Inhabited

structure UNWIND_INFO where
  version_flags : Nat
  size_of_prolog : Nat
  count_of_codes : Nat
  frame_register_offset : Nat
deriving Repr, DecidableEq

/-- The logical unwind operations (large/small and far/near merged),
mirroring `enum UnwindOp` of stack.rs. -/
inductive UnwindOp where
  | PushNonVolatile (reg : Nat)
  | Alloc (size : Nat)
  | SetFpreg
  | SaveNonVolatile (reg : Nat) (offset : Nat)
  | SaveXmm128 (reg : Nat) (offset : Nat)
  | PushMachFrame (error_code : Bool)
deriving Repr, DecidableEq

structure UnwindCode where
  code_offset : Nat
  op : UnwindOp
deriving Repr, DecidableEq

/-- Typed-read oracle standing for the `MemorySource` trait object as
used by stack.rs. -/
structure StackMemory where
  readU64 : Nat → Except String Nat
  readRuntimeFunctionArray : Nat → Nat → Except String (List RUNTIME_FUNCTION)
  readUnwindInfo : Nat → Except String UNWIND_INFO
  readU16Array : Nat → Nat → Except String (List Nat)

/-- Worker of `get_unwind_ops`, structurally recursive on a fuel that
always dominates the number of remaining slots (each step consumes at
least one slot), so the fuel-exhaustion arm is unreachable. -/
def get_unwind_ops_fuel : Nat → List Nat → Except String (List UnwindCode)
  | _, [] => .ok []
  | 0, _ :: _ => .ok []
  | fuel + 1, slot :: rest =>
    let code_offset := slot % 256
    let unwind_op := slot / 256 % 16
    let op_info := slot / 4096 % 16
    if unwind_op = 0 then
      -- UWOP_PUSH_NONVOL
      (get_unwind_ops_fuel fuel rest).map (⟨code_offset, .PushNonVolatile op_info⟩ :: ·)
    else if unwind_op = 1 then
      -- UWOP_ALLOC_LARGE
      if op_info = 0 then
        match rest with
        | [] => .error "UWOP_ALLOC_LARGE was incomplete"
        | n1 :: rest1 =>
          (get_unwind_ops_fuel fuel rest1).map (⟨code_offset, .Alloc (n1 * 8)⟩ :: ·)
      else if op_info = 1 then
        match rest with
        | n1 :: n2 :: rest2 =>
          (get_unwind_ops_fuel fuel rest2).map (⟨code_offset, .Alloc (n1 + n2 * 65536)⟩ :: ·)
        | _ => .error "UWOP_ALLOC_LARGE was incomplete"
      else .error "Unrecognized unwind op"
    else if unwind_op = 2 then
      -- UWOP_ALLOC_SMALL
      (get_unwind_ops_fuel fuel rest).map (⟨code_offset, .Alloc (op_info * 8 + 8)⟩ :: ·)
    else if unwind_op = 3 then
      -- UWOP_SET_FPREG
      (get_unwind_ops_fuel fuel rest).map (⟨code_offset, .SetFpreg⟩ :: ·)
    else if unwind_op = 4 then
      -- UWOP_SAVE_NONVOL
      match rest with
      | [] => .error "UWOP_SAVE_NONVOL was incomplete"
      | n1 :: rest1 =>
        (get_unwind_ops_fuel fuel rest1).map (⟨code_offset, .SaveNonVolatile op_info n1⟩ :: ·)
    else if unwind_op = 5 then
      -- UWOP_SAVE_NONVOL_FAR
      match rest with
      | n1 :: n2 :: rest2 =>
        (get_unwind_ops_fuel fuel rest2).map
          (⟨code_offset, .SaveNonVolatile op_info (n1 + n2 * 65536)⟩ :: ·)
      | _ => .error "UWOP_SAVE_NONVOL_FAR was incomplete"
    else if unwind_op = 8 then
      -- UWOP_SAVE_XMM128
      match rest with
      | [] => .error "UWOP_SAVE_XMM128 was incomplete"
      | n1 :: rest1 =>
        (get_unwind_ops_fuel fuel rest1).map (⟨code_offset, .SaveXmm128 op_info n1⟩ :: ·)
    else if unwind_op = 9 then
      -- UWOP_SAVE_XMM128_FAR
      match rest with
      | n1 :: n2 :: rest2 =>
        (get_unwind_ops_fuel fuel rest2).map
          (⟨code_offset, .SaveXmm128 op_info (n1 + n2 * 65536)⟩ :: ·)
      | _ => .error "UWOP_SAVE_XMM128_FAR was incomplete"
    else .error "Unrecognized unwind op"

/-- `get_unwind_ops`: parse the `UNWIND_CODE` slot array (u16 values,
`code_offset` in the low byte, op in the next 4 bits, op-info in the top
4 bits), consuming the extra slots of the wide forms; slots past the end
and unknown ops are decoding errors. -/
def get_unwind_ops (code_slots : List Nat) : Except String (List UnwindCode) :=
  get_unwind_ops_fuel code_slots.length code_slots

/-- Write access of `get_op_register`: registers 0..15 in the x64
numbering; anything else panics. -/
def set_op_register (context : CONTEXT) (reg val : Nat) : RunResult CONTEXT :=
  match reg with
  | 0 => .ok { context with rax := val }
  | 1 => .ok { context with rcx := val }
  | 2 => .ok { context with rdx := val }
  | 3 => .ok { context with rbx := val }
  | 4 => .ok { context with rsp := val }
  | 5 => .ok { context with rbp := val }
  | 6 => .ok { context with rsi := val }
  | 7 => .ok { context with rdi := val }
  | 8 => .ok { context with r8 := val }
  | 9 => .ok { context with r9 := val }
  | 10 => .ok { context with r10 := val }
  | 11 => .ok { context with r11 := val }
  | 12 => .ok { context with r12 := val }
  | 13 => .ok { context with r13 := val }
  | 14 => .ok { context with r14 := val }
  | 15 => .ok { context with r15 := val }
  | _ => .panic "Bad register given to get_op_register()"

/-- Read access to the same numbering (used by the reference
interpreter; prologs only read registers 0..15). -/
def get_op_register_val (context : CONTEXT) (reg : Nat) : Nat :=
  match reg with
  | 0 => context.rax
  | 1 => context.rcx
  | 2 => context.rdx
  | 3 => context.rbx
  | 4 => context.rsp
  | 5 => context.rbp
  | 6 => context.rsi
  | 7 => context.rdi
  | 8 => context.r8
  | 9 => context.r9
  | 10 => context.r10
  | 11 => context.r11
  | 12 => context.r12
  | 13 => context.r13
  | 14 => context.r14
  | 15 => context.r15
  | _ => 0

/-- Loop body of `apply_unwind_ops`: ops whose `code_offset` lies beyond
`Rip - func_address` are skipped; `Alloc` adds to Rsp, `PushNonVolatile`
pops into the register, `SaveNonVolatile` reloads from `Rsp + offset`,
and the remaining ops hit the `panic!("NYI unwind op")` arm. -/
def apply_unwind_ops_go (func_address : Nat) (memory_source : StackMemory) :
    CONTEXT → List UnwindCode → RunResult (Option CONTEXT)
  | ctx, [] => .ok (some ctx)
  | ctx, unwind :: rest =>
    let func_offset := wsub ctx.rip func_address
    if unwind.code_offset ≤ func_offset then
      match unwind.op with
      | .Alloc size =>
        apply_unwind_ops_go func_address memory_source { ctx with rsp := wadd ctx.rsp size } rest
      | .PushNonVolatile reg =>
        match memory_source.readU64 ctx.rsp with
        | .error e => .err e
        | .ok val =>
          let ctx := { ctx with rsp := wadd ctx.rsp 8 }
          (set_op_register ctx reg val).bind fun ctx =>
            apply_unwind_ops_go func_address memory_source ctx rest
      | .SaveNonVolatile reg offset =>
        match memory_source.readU64 (wadd ctx.rsp offset) with
        | .error e => .err e
        | .ok val =>
          (set_op_register ctx reg val).bind fun ctx =>
            apply_unwind_ops_go func_address memory_source ctx rest
      | _ => .panic "NYI unwind op"
    else apply_unwind_ops_go func_address memory_source ctx rest

/-- `apply_unwind_ops` from stack.rs. -/
def apply_unwind_ops (context : CONTEXT) (unwind_ops : List UnwindCode)
    (func_address : Nat) (memory_source : StackMemory) : RunResult (Option CONTEXT) :=
  apply_unwind_ops_go func_address memory_source context unwind_ops

/-- Rust `slice::binary_search_by` with fuel (the interval shrinks every
round, so `len + 1` rounds suffice): `inl` an exact match position,
`inr` the insertion point. -/
def binary_search_loop (cmp : Nat → Ordering) : Nat → Nat → Nat → Sum Nat Nat
  | 0, left, _ => .inr left
  | fuel + 1, left, right =>
    if left < right then
      let mid := left + (right - left) / 2
      match cmp mid with
      | .lt => binary_search_loop cmp fuel (mid + 1) right
      | .gt => binary_search_loop cmp fuel left mid
      | .eq => .inl mid
    else .inr left

def binary_search_by (function_list : List RUNTIME_FUNCTION) (addr : Nat) : Sum Nat Nat :=
  binary_search_loop
    (fun mid => compare (function_list.getD mid default).BeginAddress addr)
    (function_list.length + 1) 0 function_list.length

/-- `map_or(false, |func| func.BeginAddress <= addr && addr < func.EndAddress)`. -/
def rf_contains_addr (addr : Nat) : Option RUNTIME_FUNCTION → Bool
  | none => false
  | some f => decide (f.BeginAddress ≤ addr) && decide (addr < f.EndAddress)

/-- `find_runtime_function` from stack.rs: binary search on
`BeginAddress`, then containment checks on the neighbours of the
insertion point. -/
def find_runtime_function (addr : Nat) (function_list : List RUNTIME_FUNCTION) :
    Option RUNTIME_FUNCTION :=
  match binary_search_by function_list addr with
  | .inl pos => function_list.get? pos
  | .inr pos =>
    if 0 < pos ∧ rf_contains_addr addr (function_list.get? (pos - 1)) then
      function_list.get? (pos - 1)
    else if pos < function_list.length ∧ rf_contains_addr addr (function_list.get? pos) then
      function_list.get? pos
    else none

def IMAGE_DIRECTORY_ENTRY_EXCEPTION : Nat := 3

def UNW_FLAG_CHAININFO : Nat := 4

/-- `unwind_context` from stack.rs. -/
def unwind_context (p : Process) (context : CONTEXT) (memory_source : StackMemory) :
    RunResult (Option CONTEXT) :=
  match get_containing_module p context.rip with
  | none => .ok none
  | some module =>
    let data_directory := module.get_data_directory IMAGE_DIRECTORY_ENTRY_EXCEPTION
    if data_directory.VirtualAddress ≠ 0 ∧ data_directory.Size ≠ 0 then
      let count := data_directory.Size / 12
      let table_address := module.address + data_directory.VirtualAddress
      match memory_source.readRuntimeFunctionArray table_address count with
      | .error e => .err e
      | .ok functions =>
        let rva := wsub context.rip module.address % 2 ^ 32
        match find_runtime_function rva functions with
        | some func =>
          let info_addr := module.address + func.UnwindInfo
          match memory_source.readUnwindInfo info_addr with
          | .error e => .err e
          | .ok info =>
            let flags := info.version_flags / 8 % 32
            if flags &&& UNW_FLAG_CHAININFO = UNW_FLAG_CHAININFO then
              .err "NYI: Chained info"
            else if info.frame_register_offset ≠ 0 then
              .err "NYI frame_register_offset"
            else
              match memory_source.readU16Array (info_addr + 4) info.count_of_codes with
              | .error e => .err e
              | .ok codes =>
                match get_unwind_ops codes with
                | .error e => .err e
                | .ok unwind_ops =>
                  match apply_unwind_ops context unwind_ops
                      (module.address + func.BeginAddress) memory_source with
                  | .panic m => .panic m
                  | .err e => .err e
                  | .ok none => .ok none
                  | .ok (some ctx) =>
                    match memory_source.readU64 ctx.rsp with
                    | .error e => .err e
                    | .ok newRip =>
                      let ctx := { ctx with rip := newRip, rsp := wadd ctx.rsp 8 }
                      if ctx.rip = 0 then .ok none
                      else .ok (some ctx)
        | none =>
          -- leaf function: the return address is simply at [RSP]
          match memory_source.readU64 context.rsp with
          | .error e => .err e
          | .ok newRip =>
            .ok (some { context with rip := newRip, rsp := wadd context.rsp 8 })
    else .ok none

/-- A memory oracle on which every read fails (no read should be
reached). -/
def failing_stack_memory : StackMemory :=
  ⟨fun _ => .error "unmapped", fun _ _ => .error "unmapped",
   fun _ => .error "unmapped", fun _ _ => .error "unmapped"⟩

/-- C5 fixture: a module whose data directories are all zero — no
exception directory. -/
def noexc_module : Module := { name := "m", address := 0x1000, size := 0x1000, exports := [] }

def noexc_process : Process := ⟨[noexc_module], []⟩

/-- C5 fixture: memory in which every 8-byte read succeeds (so the
return-address slot at [Rsp] is readable). -/
def readable_stack_memory : StackMemory :=
  ⟨fun _ => .ok 0x77, fun _ _ => .error "x", fun _ => .error "x", fun _ _ => .error "x"⟩

/-- C5 witness fixture: a module with an exception directory whose only
RUNTIME_FUNCTION does not cover the query RVA. -/
def exc_module : Module :=
  { name := "m", address := 0x1000, size := 0x1000, exports := [],
    dataDirs := [⟨0, 0⟩, ⟨0, 0⟩, ⟨0, 0⟩, ⟨0x100, 12⟩] }

def exc_process : Process := ⟨[exc_module], []⟩

/-- C5 witness fixture: the RUNTIME_FUNCTION table holds one entry far
from the query, and [Rsp] holds the return address 0xBEEF. -/
def exc_memory : StackMemory :=
  ⟨fun a => if a = 0x2000 then .ok 0xBEEF else .error "unmapped",
   fun a n => if a = 0x1100 ∧ n = 1 then .ok [⟨0x2000, 0x2010, 0x40⟩] else .error "unmapped",
   fun _ => .error "unmapped", fun _ _ => .error "unmapped"⟩

/-! ## Reference prolog interpreter (for C1)

Modelled from the spec's words: "a reference interpreter that executes
the prolog forwards up to the matching code_offset".  The decoded
unwind-op list stores the most recent prolog instruction first, so the
tail of the list executes first; only ops whose `code_offset` is at most
`funcOffset` execute.  A push stores the register's 8 bytes at `Rsp - 8`
and decrements Rsp by 8, an allocation decrements Rsp by its size, and a
register save stores the register's 8 bytes at `Rsp + offset`.  Since a
prolog modifies only Rsp and memory, the interpreter is split into the
Rsp evolution (`exec_rsp`), the list of (address, value) memory writes in
execution order (`exec_writes`), and the final memory (`exec_mem`), over
the initial register file `ctx0`. -/

/-- A single 8-byte store on the u64-cell memory model. -/
def mem_write (m : Nat → Except String Nat) (a v : Nat) : Nat → Except String Nat :=
  fun x => if x = a then .ok v else m x

/-- Rsp after forward execution of the applied ops (decoded order: the
tail executes first). -/
def exec_rsp (fo : Nat) : List UnwindCode → Nat → Nat
  | [], rsp => rsp
  | u :: rest, rsp =>
    let r := exec_rsp fo rest rsp
    if u.code_offset ≤ fo then
      match u.op with
      | .PushNonVolatile _ => wsub r 8
      | .Alloc size => wsub r size
      | _ => r
    else r

/-- The (address, value) memory writes of the forward execution, in
execution order. -/
def exec_writes (fo : Nat) (ctx0 : CONTEXT) : List UnwindCode → Nat → List (Nat × Nat)
  | [], _ => []
  | u :: rest, rsp0 =>
    let prev := exec_writes fo ctx0 rest rsp0
    let r := exec_rsp fo rest rsp0
    if u.code_offset ≤ fo then
      match u.op with
      | .PushNonVolatile reg => prev ++ [(wsub r 8, get_op_register_val ctx0 reg)]
      | .SaveNonVolatile reg offset => prev ++ [(wadd r offset, get_op_register_val ctx0 reg)]
      | _ => prev
    else prev

/-- Memory after forward execution of the prolog over base memory `m0`. -/
def exec_mem (fo : Nat) (ctx0 : CONTEXT) (l : List UnwindCode) (rsp0 : Nat)
    (m0 : Nat → Except String Nat) : Nat → Except String Nat :=
  (exec_writes fo ctx0 l rsp0).foldl (fun m w => mem_write m w.1 w.2) m0

/-- The op forms the unwinder materializes, with the side conditions of
the inversion theorem: registers are among the sixteen GPRs and not Rsp
itself, allocation sizes are u64-representable. -/
def op_ok : UnwindOp → Prop
  | .PushNonVolatile reg => reg < 16 ∧ reg ≠ 4
  | .Alloc size => size < W64
  | .SaveNonVolatile reg _ => reg < 16 ∧ reg ≠ 4
  | _ => False

/-- Every memory cell the unwinder will read still holds the value the
forward execution stored there (stated over the decoded list; the read of
an op sees the Rsp of the execution state just before that op ran). -/
def reads_ok (ctx0 : CONTEXT) (M : Nat → Except String Nat) (fo : Nat) :
    List UnwindCode → Nat → Prop
  | [], _ => True
  | u :: rest, rsp0 =>
    reads_ok ctx0 M fo rest rsp0 ∧
    (u.code_offset ≤ fo →
      match u.op with
      | .PushNonVolatile reg =>
        M (wsub (exec_rsp fo rest rsp0) 8) = .ok (get_op_register_val ctx0 reg)
      | .SaveNonVolatile reg offset =>
        M (wadd (exec_rsp fo rest rsp0) offset) = .ok (get_op_register_val ctx0 reg)
      | _ => True)

/-- Wrap a u64-cell memory as the unwinder's memory oracle (only
`readU64` is exercised by `apply_unwind_ops`). -/
def stack_memory_of (f : Nat → Except String Nat) : StackMemory :=
  ⟨f, fun _ _ => .error "unused", fun _ => .error "unused", fun _ _ => .error "unused"⟩

/-- C1 witness fixture: prolog `push rbp; sub rsp, 0x30` (decoded order:
the allocation first), with Rip six bytes into the function. -/
def c1_ops : List UnwindCode := [⟨5, .Alloc 0x30⟩, ⟨1, .PushNonVolatile 5⟩]

def c1_ctx : CONTEXT := { CONTEXT.zero with rsp := 0x1000, rbp := 0xAA }

def c1_base_mem : Nat → Except String Nat :=
  fun a => if a = 0x1000 then .ok 0xBEEF else .error "unmapped"

/-! ## Live memory reading (memory.rs, C4)

`LiveMemorySource::read_memory` loops over `ReadProcessMemory` calls.
The OS call is abstracted as an oracle returning a success flag and the
bytes actually read (`bytes_read` is the returned list's length). -/

structure RpmResult where
  success : Bool
  bytes : List Nat
deriving Repr

def RpmOracle : Type := Nat → Nat → RpmResult

/-- The copy loop `data[offset + index] = Some(buffer[index])`. -/
def write_bytes : List (Option Nat) → Nat → List Nat → List (Option Nat)
  | data, _, [] => data
  | data, offset, b :: rest => write_bytes (data.set offset (some b)) (offset + 1) rest

/-- The `while offset < len` loop of `read_memory`, with a structural
fuel that always exceeds `len - offset` (the offset strictly increases
every round, so `len + 1` rounds suffice and the fuel-exhaustion arm is
unreachable).  A failed OS call returns the `Err`; a reply with more
bytes than requested would index out of bounds (a Rust panic); a
zero-byte success advances one byte. -/
def read_memory_go (rpm : RpmOracle) (address len : Nat) :
    Nat → Nat → List (Option Nat) → RunResult (List (Option Nat))
  | 0, _, data => .ok data
  | fuel + 1, offset, data =>
    if offset < len then
      if (rpm (address + offset) (len - offset)).success = false then
        .err "ReadProcessMemory failed"
      else if len < offset + (rpm (address + offset) (len - offset)).bytes.length then
        .panic "index out of bounds"
      else
        read_memory_go rpm address len fuel
          (offset + max (rpm (address + offset) (len - offset)).bytes.length 1)
          (write_bytes data offset (rpm (address + offset) (len - offset)).bytes)
    else .ok data

/-- `LiveMemorySource::read_memory`: one optional byte per requested
byte, starting from an all-`None` buffer. -/
def read_memory (rpm : RpmOracle) (address len : Nat) : RunResult (List (Option Nat)) :=
  read_memory_go rpm address len (len + 1) 0 (List.replicate len none)

/-- Length of the maximal readable run starting at `a`, capped at `l`. -/
def rpm_run_len (readable : Nat → Bool) : Nat → Nat → Nat
  | _, 0 => 0
  | a, l + 1 => if readable a then rpm_run_len readable (a + 1) l + 1 else 0

/-- Modelled OS behaviour for C4's amended theorem: every
`ReadProcessMemory` call reports success and returns the maximal
readable prefix of the requested range (per-byte readability
`readable`, byte contents `content`). -/
def mk_partial_rpm (readable : Nat → Bool) (content : Nat → Nat) : RpmOracle :=
  fun a l =>
    ⟨true, (List.range (rpm_run_len readable a l)).map (fun i => content (a + i))⟩

/-! ## Module loading (module.rs, main.rs; C3)

`Module::from_memory_view` parses the in-memory PE image.  Each
monomorphized read of the memory source (`read_memory_data::<T>`,
`read_memory_full_array::<u16>/<u32>`, `read_memory_string`) is one
oracle field of `ModuleMemView`; `openPdb` stands for
`File::open` + `PDB::open` together (both failures are non-fatal). -/

def IMAGE_FILE_MACHINE_AMD64 : Nat := 0x8664

def IMAGE_DIRECTORY_ENTRY_EXPORT : Nat := 0

def IMAGE_DIRECTORY_ENTRY_DEBUG : Nat := 6

def IMAGE_DEBUG_TYPE_CODEVIEW : Nat := 2

structure IMAGE_DOS_HEADER where
  e_lfanew : Nat
deriving Repr, DecidableEq

structure IMAGE_FILE_HEADER where
  Machine : Nat
deriving Repr, DecidableEq

structure IMAGE_OPTIONAL_HEADER64 where
  SizeOfImage : Nat
  DataDirectory : List DataDirectory
deriving Repr, DecidableEq

structure IMAGE_NT_HEADERS64 where
  FileHeader : IMAGE_FILE_HEADER
  OptionalHeader : IMAGE_OPTIONAL_HEADER64
deriving Repr, DecidableEq

/-- `IMAGE_DEBUG_DIRECTORY` (the `Type` field is `Type_` since `Type` is
a Lean keyword). -/
structure IMAGE_DEBUG_DIRECTORY where
  Type_ : Nat
  AddressOfRawData : Nat
  SizeOfData : Nat
deriving Repr, DecidableEq

structure IMAGE_EXPORT_DIRECTORY where
  Name : Nat
  Base : Nat
  NumberOfFunctions : Nat
  NumberOfNames : Nat
  AddressOfFunctions : Nat
  AddressOfNames : Nat
  AddressOfNameOrdinals : Nat
deriving Repr, DecidableEq

structure ModuleMemView where
  readDosHeader : Nat → Except String IMAGE_DOS_HEADER
  readNtHeaders : Nat → Except String IMAGE_NT_HEADERS64
  readDebugDirectory : Nat → Except String IMAGE_DEBUG_DIRECTORY
  readPdbInfo : Nat → Except String PdbInfo
  readExportDirectory : Nat → Except String IMAGE_EXPORT_DIRECTORY
  readString : Nat → Nat → Except String String
  readU16Array : Nat → Nat → Except String (List Nat)
  readU32Array : Nat → Nat → Except String (List Nat)
  openPdb : String → Option PdbHandle

/-- Loop of `Module::read_debug_info` over the (at most 20) debug
directory entries; a CODEVIEW entry reads the PDB info header and
NUL-terminated path and tries to open the PDB (failure keeps the
previous handle). -/
def read_debug_info_go (module_address : Nat) (debug_table_info : DataDirectory)
    (mv : ModuleMemView) :
    Nat → Nat → (Option PdbInfo × Option String × Option PdbHandle) →
    Except String (Option PdbInfo × Option String × Option PdbHandle)
  | 0, _, acc => .ok acc
  | remaining + 1, dir_index, acc =>
    let debug_directory_address :=
      module_address + debug_table_info.VirtualAddress + dir_index * 28
    match mv.readDebugDirectory debug_directory_address with
    | .error e => .error e
    | .ok dd =>
      if dd.Type_ = IMAGE_DEBUG_TYPE_CODEVIEW then
        let pdb_info_address := dd.AddressOfRawData + module_address
        match mv.readPdbInfo pdb_info_address with
        | .error e => .error e
        | .ok pinfo =>
          let pdb_name_address := pdb_info_address + 24
          let max_size := dd.SizeOfData - 24
          match mv.readString pdb_name_address max_size with
          | .error e => .error e
          | .ok pname =>
            let pdb := match mv.openPdb pname with
              | some p => some p
              | none => acc.2.2
            read_debug_info_go module_address debug_table_info mv remaining
              (dir_index + 1) (some pinfo, some pname, pdb)
      else
        read_debug_info_go module_address debug_table_info mv remaining (dir_index + 1) acc

/-- `Module::read_debug_info`. -/
def read_debug_info (pe_header : IMAGE_NT_HEADERS64) (module_address : Nat)
    (mv : ModuleMemView) :
    Except String (Option PdbInfo × Option String × Option PdbHandle) :=
  let debug_table_info :=
    pe_header.OptionalHeader.DataDirectory.getD IMAGE_DIRECTORY_ENTRY_DEBUG ⟨0, 0⟩
  if debug_table_info.VirtualAddress ≠ 0 then
    let count := min (debug_table_info.Size / 28) 20
    read_debug_info_go module_address debug_table_info mv count 0 (none, none, none)
  else .ok (none, none, none)

/-- Loop of `Module::read_exports` over the function-address table:
biased ordinal, optional name via the parallel ordinal/name tables, and
forwarder detection (a target inside the export directory's own range). -/
def read_exports_go (module_address export_table_addr export_table_end : Nat)
    (export_dir : IMAGE_EXPORT_DIRECTORY) (ordinal_array name_array : List Nat)
    (mv : ModuleMemView) :
    List Nat → Nat → List Export → Except String (List Export)
  | [], _, acc => .ok acc
  | fn :: rest, unbiased_ordinal, acc =>
    let ordinal := export_dir.Base + unbiased_ordinal
    let target_address := module_address + fn
    let name_read : Except String (Option String) :=
      match ordinal_array.findIdx? (fun o => o = unbiased_ordinal % 65536) with
      | none => .ok none
      | some idx =>
        match mv.readString (module_address + name_array.getD idx 0) 4096 with
        | .error e => .error e
        | .ok s => .ok (some s)
    match name_read with
    | .error e => .error e
    | .ok export_name =>
      if export_table_addr ≤ target_address ∧ target_address < export_table_end then
        match mv.readString target_address 4096 with
        | .error e => .error e
        | .ok forwarding_name =>
          read_exports_go module_address export_table_addr export_table_end export_dir
            ordinal_array name_array mv rest (unbiased_ordinal + 1)
            (acc ++ [{ name := export_name, ordinal := ordinal,
                       target := .forwarder forwarding_name }])
      else
        read_exports_go module_address export_table_addr export_table_end export_dir
          ordinal_array name_array mv rest (unbiased_ordinal + 1)
          (acc ++ [{ name := export_name, ordinal := ordinal,
                     target := .rva target_address }])

/-- `Module::read_exports`. -/
def read_exports (pe_header : IMAGE_NT_HEADERS64) (module_address : Nat)
    (mv : ModuleMemView) : Except String (List Export × Option String) :=
  let export_table_info :=
    pe_header.OptionalHeader.DataDirectory.getD IMAGE_DIRECTORY_ENTRY_EXPORT ⟨0, 0⟩
  if export_table_info.VirtualAddress ≠ 0 then do
    let export_table_addr := module_address + export_table_info.VirtualAddress
    let export_table_end := export_table_addr + export_table_info.Size
    let export_directory ← mv.readExportDirectory export_table_addr
    let module_name ←
      if export_directory.Name ≠ 0 then
        (mv.readString (module_address + export_directory.Name) 512).map some
      else pure none
    let ordinal_array ← mv.readU16Array
      (module_address + export_directory.AddressOfNameOrdinals) export_directory.NumberOfNames
    let name_array ← mv.readU32Array
      (module_address + export_directory.AddressOfNames) export_directory.NumberOfNames
    let address_table ← mv.readU32Array
      (module_address + export_directory.AddressOfFunctions) export_directory.NumberOfFunctions
    let exports ← read_exports_go module_address export_table_addr export_table_end
      export_directory ordinal_array name_array mv address_table 0 []
    pure (exports, module_name)
  else .ok ([], none)

/-- `Module::from_memory_view`: strict on the required POD reads, rejects
non-x86-64 machine types, tolerant of missing exports and PDBs. -/
def Module.from_memory_view (module_address : Nat) (module_name : Option String)
    (mv : ModuleMemView) : Except String Module := do
  let dos_header ← mv.readDosHeader module_address
  let pe_header_addr := module_address + dos_header.e_lfanew
  let pe_header ← mv.readNtHeaders pe_header_addr
  let size := pe_header.OptionalHeader.SizeOfImage
  if pe_header.FileHeader.Machine ≠ IMAGE_FILE_MACHINE_AMD64 then
    .error "Unsupported machine architecture for module"
  else do
    let (pdb_info, pdb_name, pdb) ← read_debug_info pe_header module_address mv
    let (exports, export_table_module_name) ← read_exports pe_header module_address mv
    let module_name := (module_name.or export_table_module_name).getD
      ("module_" ++ toHexUpper module_address)
    .ok { name := module_name, address := module_address, size := size,
          exports := exports, pdb_name := pdb_name, pdb_info := pdb_info, pdb := pdb,
          address_map := pdb.map (fun _ => ()),
          dataDirs := pe_header.OptionalHeader.DataDirectory }

/-- `Process::add_module`. -/
def add_module (p : Process) (address : Nat) (name : Option String)
    (mv : ModuleMemView) : Except String Process :=
  (Module.from_memory_view address name mv).map
    (fun m => { p with module_list := p.module_list ++ [m] })

/-- `load_module_at_address` from main.rs: calls
`process.add_module(...).unwrap()`, so a parse error panics. -/
def load_module_at_address (p : Process) (mv : ModuleMemView) (base_address : Nat)
    (module_name : Option String) : RunResult Process :=
  match add_module p base_address module_name mv with
  | .ok p2 => .ok p2
  | .error e => .panic e

/-- C3 fixture: the memory view of a loaded 32-bit (i386) image — the NT
header's machine field is 0x14C, not AMD64. -/
def i386_view : ModuleMemView :=
  { readDosHeader := fun _ => .ok ⟨0x80⟩,
    readNtHeaders := fun _ => .ok ⟨⟨0x14C⟩, ⟨0x1000, []⟩⟩,
    readDebugDirectory := fun _ => .error "unmapped",
    readPdbInfo := fun _ => .error "unmapped",
    readExportDirectory := fun _ => .error "unmapped",
    readString := fun _ _ => .error "unmapped",
    readU16Array := fun _ _ => .error "unmapped",
    readU32Array := fun _ _ => .error "unmapped",
    openPdb := fun _ => none }

/-! ## Theorems -/

theorem wadd_lt (a b : Nat) : wadd a b < W64 := by
  have : 0 < W64 := by decide
  exact Nat.mod_lt _ this

theorem wsub_lt (a b : Nat) : wsub a b < W64 := by
  have : 0 < W64 := by decide
  exact Nat.mod_lt _ this

/-- Adding back what was subtracted is the identity on values below `2^64`. -/

theorem wadd_wsub_cancel (a b : Nat) (ha : a < W64) (hb : b < W64) :
    wadd (wsub a b) b = a := by
  unfold wadd wsub
  rw [Nat.mod_eq_of_lt hb, Nat.mod_add_mod]
  have h1 : a + (W64 - b) + b = a + W64 := by omega
  rw [h1, Nat.add_mod_right, Nat.mod_eq_of_lt ha]

/-- C10: `clear_breakpoint` removes exactly the breakpoints whose id equals
the argument, keeps all others in their original order, and is a silent
no-op (returning the list unchanged, with no error) when no live
breakpoint has that id. -/

theorem clear_breakpoint_removes_exactly_matching (bps : List Breakpoint) (id : Nat) :
    (∀ b ∈ clear_breakpoint bps id, b.id ≠ id)
    ∧ (clear_breakpoint bps id).Sublist bps
    ∧ (∀ b ∈ bps, b.id ≠ id → b ∈ clear_breakpoint bps id)
    ∧ ((∀ b ∈ bps, b.id ≠ id) → clear_breakpoint bps id = bps) := by
  refine ⟨?_, ?_, ?_, ?_⟩
  · intro b hb
    have := List.of_mem_filter hb
    simpa using this
  · exact List.filter_sublist bps
  · intro b hb hne
    exact List.mem_filter.mpr ⟨hb, by simpa using hne⟩
  · intro h
    apply List.filter_eq_self.mpr
    intro b hb
    simpa using h b hb

/-- Witness for C10 at a concrete list: clearing id 1 from a list holding
ids 0 and 2 leaves the list unchanged. -/

theorem clear_breakpoint_removes_exactly_matching_witness :
    clear_breakpoint [⟨0xA, 0⟩, ⟨0xB, 2⟩] 1 = [⟨0xA, 0⟩, ⟨0xB, 2⟩] :=
  (clear_breakpoint_removes_exactly_matching [⟨0xA, 0⟩, ⟨0xB, 2⟩] 1).2.2.2 (by decide)

/-- C6 (code bug evaluation): with four breakpoints live, adding a fifth
does not produce a recoverable error — `get_free_id` panics with
"Too many breakpoints!", which aborts the whole debugger process. -/

theorem add_breakpoint_panics_when_four_live :
    add_breakpoint [⟨0x1000, 0⟩, ⟨0x1001, 1⟩, ⟨0x1002, 2⟩, ⟨0x1003, 3⟩] 0x2000
      = RunResult.panic "Too many breakpoints!" := by decide

/-- C2 (code bug evaluation): after all four breakpoints are cleared
(`breakpoints = []`), applying to a thread whose `Dr7` still has all four
local-enable bits set (`0x55`, as left by a previous application of four
breakpoints) clears only slot 0's enable bit and then `break`s out of the
slot loop, leaving the stale enable bits of the unoccupied slots 1..3 set
— contradicting the claim that every unoccupied slot ends with
`DR7.LE_i = 0` (and the code's own comment that unused breakpoints are
disabled). -/

theorem apply_breakpoints_leaves_stale_enable_bits :
    (apply_breakpoints_thread [] false { CONTEXT.zero with dr7 := 0x55 }).dr7 = 0x54
    ∧ get_bit (apply_breakpoints_thread [] false { CONTEXT.zero with dr7 := 0x55 }).dr7
        (DR7_LE_BIT.getD 1 0) = true
    ∧ get_bit (apply_breakpoints_thread [] false { CONTEXT.zero with dr7 := 0x55 }).dr7
        (DR7_LE_BIT.getD 2 0) = true
    ∧ get_bit (apply_breakpoints_thread [] false { CONTEXT.zero with dr7 := 0x55 }).dr7
        (DR7_LE_BIT.getD 3 0) = true := by decide

/-- C9 counterexample: the claim says a symbol `@x` whose suffix is not a
register name fails with an "unknown register" error and never falls back
to symbol resolution.  In fact `evaluate_expression` discards the register
error and re-resolves the whole symbol: `@m!f` resolves through module
`@m`'s export table to `0x140001234` (no error at all), and a bare
`@foo` fails with `resolve_name_to_address`'s "Not yet implemented", not
with an unknown-register error. -/

theorem evaluate_register_sigil_falls_back_counterexample :
    evaluate_expression (.Symbol "@m!f") ⟨⟨[atModule], []⟩, CONTEXT.zero⟩
        = .ok 0x140001234
    ∧ evaluate_expression (.Symbol "@foo") ⟨⟨[], []⟩, CONTEXT.zero⟩
        = .error "Not yet implemented" := ⟨rfl, rfl⟩

/-- C9 amended: a symbol beginning with `@` evaluates to the register's
value when the rest (case-insensitively) names a register; when the
register lookup fails, evaluation falls back to resolving the whole
symbol (including the `@`) as a name, so it returns whatever
`resolve_name_to_address` returns instead of an "unknown register"
error. -/

theorem evaluate_register_sigil_amended (sym : String) (ec : EvalContext)
    (h : sym.toList.headD ' ' = '@') :
    (∀ v, get_register ec.register_context ⟨sym.toList.drop 1⟩ = .ok v →
        evaluate_expression (.Symbol sym) ec = .ok v)
    ∧ (∀ e, get_register ec.register_context ⟨sym.toList.drop 1⟩ = .error e →
        evaluate_expression (.Symbol sym) ec = resolve_name_to_address sym ec.process) := by
  have h' : sym.data.head?.getD ' ' = '@' := by
    simpa [String.toList] using h
  constructor
  · intro v hv
    simp only [List.drop_one, String.toList] at hv
    simp [evaluate_expression, h', hv]
  · intro e he
    simp only [List.drop_one, String.toList] at he
    simp [evaluate_expression, h', he]

/-- Witness for C9's amended theorem: `@rip` reads the current Rip. -/

theorem evaluate_register_sigil_amended_witness :
    evaluate_expression (.Symbol "@rip") ⟨⟨[], []⟩, { CONTEXT.zero with rip := 7 }⟩
      = .ok 7 :=
  (evaluate_register_sigil_amended "@rip" ⟨⟨[], []⟩, { CONTEXT.zero with rip := 7 }⟩
    rfl).1 7 rfl

/-- Combined invariants of the export scan: provenance of the result,
domination of every candidate at or below the query, preservation of an
empty accumulator, and monotonicity from a non-empty accumulator. -/

theorem export_scan_props (address : Nat) (l : List Export) :
    ∀ c ca,
      ((export_scan address l (c, ca)) = (c, ca)
        ∨ (∃ e, (export_scan address l (c, ca)).1 = .exportMatch e
            ∧ ((export_scan address l (c, ca)).2, e.to_string) ∈ spec_export_cands l
            ∧ (export_scan address l (c, ca)).2 ≤ address))
    ∧ (∀ q ∈ spec_export_cands l, q.1 ≤ address →
        (export_scan address l (c, ca)).1.is_none = false
          ∧ q.1 ≤ (export_scan address l (c, ca)).2)
    ∧ ((export_scan address l (c, ca)).1.is_none = true →
        (export_scan address l (c, ca)) = (c, ca))
    ∧ (c.is_none = false →
        (export_scan address l (c, ca)).1.is_none = false
          ∧ ca ≤ (export_scan address l (c, ca)).2) := by
  induction l with
  | nil =>
    intro c ca
    refine ⟨Or.inl rfl, ?_, fun _ => rfl, fun h => ⟨h, le_refl ca⟩⟩
    intro q hq
    simp [spec_export_cands] at hq
  | cons e rest ih =>
    intro c ca
    cases htgt : e.target with
    | forwarder fs =>
      have hcands : spec_export_cands (e :: rest) = spec_export_cands rest := by
        simp [spec_export_cands, htgt]
      simp only [export_scan, htgt, hcands]
      exact ih c ca
    | rva a =>
      have hcands : spec_export_cands (e :: rest) = (a, e.to_string) :: spec_export_cands rest := by
        simp [spec_export_cands, htgt]
      simp only [export_scan, htgt, hcands]
      by_cases hcond : a ≤ address ∧ (c.is_none = true ∨ ca < a)
      · rw [if_pos hcond]
        obtain ⟨ih1, ih2, ih3, ih4⟩ := ih (.exportMatch e) a
        have hnn : (AddressMatch.exportMatch e).is_none = false := rfl
        refine ⟨?_, ?_, ?_, ?_⟩
        · rcases ih1 with heq | ⟨e2, h1, h2, h3⟩
          · exact Or.inr ⟨e, by rw [heq], by rw [heq]; exact List.mem_cons_self _ _,
              by rw [heq]; exact hcond.1⟩
          · exact Or.inr ⟨e2, h1, List.mem_cons_of_mem _ h2, h3⟩
        · intro q hq hqa
          rcases List.mem_cons.mp hq with hq | hq
          · obtain ⟨hn, hle⟩ := ih4 hnn
            exact ⟨hn, by rw [hq]; exact hle⟩
          · exact ih2 q hq hqa
        · intro hnull
          obtain ⟨hn, _⟩ := ih4 hnn
          rw [hnull] at hn
          cases hn
        · intro hc0
          obtain ⟨hn, hle⟩ := ih4 hnn
          rcases hcond.2 with hc | hc
          · rw [hc0] at hc; cases hc
          · exact ⟨hn, le_trans (Nat.le_of_lt hc) hle⟩
      · rw [if_neg hcond]
        obtain ⟨ih1, ih2, ih3, ih4⟩ := ih c ca
        refine ⟨?_, ?_, ih3, ih4⟩
        · rcases ih1 with heq | ⟨e2, h1, h2, h3⟩
          · exact Or.inl heq
          · exact Or.inr ⟨e2, h1, List.mem_cons_of_mem _ h2, h3⟩
        · intro q hq hqa
          rcases List.mem_cons.mp hq with hq | hq
          · -- the head candidate was rejected: c is non-empty and a ≤ ca
            have ha : a ≤ address := by rw [hq] at hqa; exact hqa
            have hrej : c.is_none = false ∧ a ≤ ca := by
              by_cases hn : c.is_none = true
              · exact absurd ⟨ha, Or.inl hn⟩ hcond
              · refine ⟨Bool.eq_false_iff.mpr (by simpa using hn), ?_⟩
                by_cases hlt : ca < a
                · exact absurd ⟨ha, Or.inr hlt⟩ hcond
                · omega
            obtain ⟨hn, hle⟩ := ih4 hrej.1
            exact ⟨hn, by rw [hq]; exact le_trans hrej.2 hle⟩
          · exact ih2 q hq hqa

/-- Combined invariants of the PDB PUBLIC scan: provenance, domination,
preservation of an empty accumulator, monotonicity, persistence of a
public match, and the tie rule (a public candidate at or above the
accumulator value forces a public result). -/

theorem public_scan_props (maddr address : Nat) (l : List SymRec) :
    ∀ c ca,
      ((public_scan maddr address l (c, ca)) = (c, ca)
        ∨ (∃ n, (public_scan maddr address l (c, ca)).1 = .publicMatch n
            ∧ ((public_scan maddr address l (c, ca)).2, n) ∈ spec_public_cands maddr l
            ∧ (public_scan maddr address l (c, ca)).2 ≤ address))
    ∧ (∀ q ∈ spec_public_cands maddr l, q.1 ≤ address →
        (public_scan maddr address l (c, ca)).1.is_none = false
          ∧ q.1 ≤ (public_scan maddr address l (c, ca)).2)
    ∧ ((public_scan maddr address l (c, ca)).1.is_none = true →
        (public_scan maddr address l (c, ca)) = (c, ca))
    ∧ (c.is_none = false →
        (public_scan maddr address l (c, ca)).1.is_none = false
          ∧ ca ≤ (public_scan maddr address l (c, ca)).2)
    ∧ ((∃ n, c = .publicMatch n) →
        ∃ n, (public_scan maddr address l (c, ca)).1 = .publicMatch n)
    ∧ (c.is_none = false →
        ∀ q ∈ spec_public_cands maddr l, q.1 ≤ address → ca ≤ q.1 →
          ∃ n, (public_scan maddr address l (c, ca)).1 = .publicMatch n) := by
  induction l with
  | nil =>
    intro c ca
    refine ⟨Or.inl rfl, ?_, fun _ => rfl, fun h => ⟨h, le_refl ca⟩, ?_, ?_⟩
    · intro q hq
      simp [spec_public_cands] at hq
    · intro ⟨n, hn⟩
      exact ⟨n, by simp [public_scan, hn]⟩
    · intro _ q hq
      simp [spec_public_cands] at hq
  | cons s rest ih =>
    intro c ca
    by_cases hfun : s.function
    · have hcands : spec_public_cands maddr (s :: rest)
          = (maddr + s.rva.getD 0, s.name) :: spec_public_cands maddr rest := by
        simp [spec_public_cands, hfun]
      simp only [public_scan, hfun, if_true, hcands]
      by_cases hcond : maddr + s.rva.getD 0 ≤ address
          ∧ (c.is_none = true ∨ ca ≤ maddr + s.rva.getD 0)
      · rw [if_pos hcond]
        obtain ⟨ih1, ih2, ih3, ih4, ih5, ih6⟩ := ih (.publicMatch s.name) (maddr + s.rva.getD 0)
        have hnn : (AddressMatch.publicMatch s.name).is_none = false := rfl
        refine ⟨?_, ?_, ?_, ?_, ?_, ?_⟩
        · rcases ih1 with heq | ⟨n, h1, h2, h3⟩
          · exact Or.inr ⟨s.name, by rw [heq], by rw [heq]; exact List.mem_cons_self _ _,
              by rw [heq]; exact hcond.1⟩
          · exact Or.inr ⟨n, h1, List.mem_cons_of_mem _ h2, h3⟩
        · intro q hq hqa
          rcases List.mem_cons.mp hq with hq | hq
          · obtain ⟨hn, hle⟩ := ih4 hnn
            exact ⟨hn, by rw [hq]; exact hle⟩
          · exact ih2 q hq hqa
        · intro hnull
          obtain ⟨hn, _⟩ := ih4 hnn
          rw [hnull] at hn
          cases hn
        · intro hc0
          obtain ⟨hn, hle⟩ := ih4 hnn
          rcases hcond.2 with hc | hc
          · rw [hc0] at hc; cases hc
          · exact ⟨hn, le_trans hc hle⟩
        · intro _
          exact ih5 ⟨s.name, rfl⟩
        · intro _ q _ _ _
          exact ih5 ⟨s.name, rfl⟩
      · rw [if_neg hcond]
        obtain ⟨ih1, ih2, ih3, ih4, ih5, ih6⟩ := ih c ca
        refine ⟨?_, ?_, ih3, ih4, ih5, ?_⟩
        · rcases ih1 with heq | ⟨n, h1, h2, h3⟩
          · exact Or.inl heq
          · exact Or.inr ⟨n, h1, List.mem_cons_of_mem _ h2, h3⟩
        · intro q hq hqa
          rcases List.mem_cons.mp hq with hq | hq
          · have ha : maddr + s.rva.getD 0 ≤ address := by rw [hq] at hqa; exact hqa
            have hrej : c.is_none = false ∧ maddr + s.rva.getD 0 < ca := by
              by_cases hn : c.is_none = true
              · exact absurd ⟨ha, Or.inl hn⟩ hcond
              · refine ⟨Bool.eq_false_iff.mpr (by simpa using hn), ?_⟩
                by_cases hle : ca ≤ maddr + s.rva.getD 0
                · exact absurd ⟨ha, Or.inr hle⟩ hcond
                · omega
            obtain ⟨hn, hle⟩ := ih4 hrej.1
            exact ⟨hn, by rw [hq]; exact le_trans (Nat.le_of_lt hrej.2) hle⟩
          · exact ih2 q hq hqa
        · intro hc0 q hq hqa hcaq
          rcases List.mem_cons.mp hq with hq | hq
          · exfalso
            apply hcond
            constructor
            · rw [hq] at hqa; exact hqa
            · refine Or.inr ?_
              rw [hq] at hcaq; exact hcaq
          · exact ih6 hc0 q hq hqa hcaq
    · have hcands : spec_public_cands maddr (s :: rest) = spec_public_cands maddr rest := by
        simp [spec_public_cands, hfun]
      have hfun' : s.function = false := Bool.eq_false_iff.mpr (by simpa using hfun)
      simp only [public_scan, hfun', if_false, hcands, Bool.false_eq_true]
      exact ih c ca

theorem resolve_in_module_eq (address : Nat) (m : Module) :
    resolve_in_module address m =
      match public_scan m.address address (visible_syms m)
          (export_scan address m.exports (.nullMatch, 0)) with
      | (.exportMatch e, closest_addr) =>
        some (format_sym m.name e.to_string (address - closest_addr))
      | (.publicMatch n, closest_addr) =>
        some (format_sym m.name n (address - closest_addr))
      | (.nullMatch, _) => none := by
  rcases hpdb : m.pdb with _ | pdb
  · simp [resolve_in_module, visible_syms, hpdb, public_scan]
  · rcases hg : pdb.globals with _ | syms
    · simp [resolve_in_module, visible_syms, hpdb, hg, public_scan]
    · by_cases ham : pdb.addrMapOk
      · simp [resolve_in_module, visible_syms, hpdb, hg, ham]
      · have ham' : pdb.addrMapOk = false := Bool.eq_false_iff.mpr (by simpa using ham)
        simp [resolve_in_module, visible_syms, hpdb, hg, ham', public_scan]

theorem spec_public_candidates_eq (m : Module) :
    spec_public_candidates m = spec_public_cands m.address (visible_syms m) := by
  rcases hpdb : m.pdb with _ | pdb
  · simp [spec_public_candidates, visible_syms, hpdb, spec_public_cands]
  · rcases hg : pdb.globals with _ | syms
    · simp [spec_public_candidates, visible_syms, hpdb, hg, spec_public_cands]
    · by_cases ham : pdb.addrMapOk
      · simp [spec_public_candidates, visible_syms, hpdb, hg, ham]
      · have ham' : pdb.addrMapOk = false := Bool.eq_false_iff.mpr (by simpa using ham)
        simp [spec_public_candidates, visible_syms, hpdb, hg, ham', spec_public_cands]

/-- Per-module characterization of `resolve_in_module`: it yields no name
exactly when no candidate lies at or below the query, and otherwise it
formats a candidate of maximal address among those at or below the query,
with a PDB PUBLIC candidate winning whenever one attains that address. -/

theorem resolve_in_module_props (address : Nat) (m : Module) :
    (resolve_in_module address m = none ↔ ∀ q ∈ spec_candidates m, ¬ q.1 ≤ address)
    ∧ (∀ s, resolve_in_module address m = some s →
        ∃ c, c ∈ spec_candidates m ∧ c.1 ≤ address
          ∧ (∀ q ∈ spec_candidates m, q.1 ≤ address → q.1 ≤ c.1)
          ∧ ((∃ q ∈ spec_public_candidates m, q.1 = c.1) → c ∈ spec_public_candidates m)
          ∧ s = format_sym m.name c.2 (address - c.1)) := by
  obtain ⟨e1, e2, e3, e4⟩ := export_scan_props address m.exports .nullMatch 0
  obtain ⟨p1, p2, p3, p4, p5, p6⟩ :=
    public_scan_props m.address address (visible_syms m)
      (export_scan address m.exports (.nullMatch, 0)).1
      (export_scan address m.exports (.nullMatch, 0)).2
  have hres := resolve_in_module_eq address m
  have hpc := spec_public_candidates_eq m
  have hcands : spec_candidates m
      = spec_export_cands m.exports ++ spec_public_cands m.address (visible_syms m) := by
    rw [spec_candidates, hpc]
  rcases hs2 : public_scan m.address address (visible_syms m)
      (export_scan address m.exports (.nullMatch, 0)) with ⟨c2, ca2⟩
  rw [hs2] at hres p1 p2 p3 p4 p5 p6
  cases c2 with
  | nullMatch =>
    have hnone : resolve_in_module address m = none := hres.trans rfl
    have hdom : ∀ q ∈ spec_candidates m, ¬ q.1 ≤ address := by
      intro q hq hqle
      rw [hcands] at hq
      rcases List.mem_append.mp hq with hq | hq
      · -- the export scan result would be non-empty
        have hs1null : (export_scan address m.exports (.nullMatch, 0))
            = ((export_scan address m.exports (.nullMatch, 0)).1,
               (export_scan address m.exports (.nullMatch, 0)).2) := rfl
        have h2 := p3 rfl
        have hs1 : (export_scan address m.exports (.nullMatch, 0)).1 = .nullMatch := by
          have := congrArg Prod.fst h2.symm
          simpa using this
        obtain ⟨hnn, _⟩ := e2 q hq hqle
        rw [hs1] at hnn
        cases hnn
      · obtain ⟨hnn, _⟩ := p2 q hq hqle
        cases hnn
    refine ⟨⟨fun _ => hdom, fun _ => hnone⟩, ?_⟩
    intro s hs
    rw [hnone] at hs
    cases hs
  | exportMatch e =>
    have hsome : resolve_in_module address m
        = some (format_sym m.name e.to_string (address - ca2)) := hres.trans rfl
    -- the public scan did not change the accumulator
    have hs1eq : (export_scan address m.exports (.nullMatch, 0))
        = (.exportMatch e, ca2) := by
      rcases p1 with h | ⟨n, h, _, _⟩
      · exact h.symm
      · cases h
    have hmem : (ca2, e.to_string) ∈ spec_export_cands m.exports ∧ ca2 ≤ address := by
      rcases e1 with h | ⟨e2', h1, h2, h3⟩
      · rw [hs1eq] at h
        cases h
      · rw [hs1eq] at h1 h2 h3
        simp only at h1 h2 h3
        have : e2' = e := by
          cases h1
          rfl
        rw [this] at h2
        exact ⟨h2, h3⟩
    have hmax : ∀ q ∈ spec_candidates m, q.1 ≤ address → q.1 ≤ ca2 := by
      intro q hq hqle
      rw [hcands] at hq
      rcases List.mem_append.mp hq with hq | hq
      · obtain ⟨_, hle⟩ := e2 q hq hqle
        rw [hs1eq] at hle
        exact hle
      · obtain ⟨_, hle⟩ := p2 q hq hqle
        exact hle
    have htie : (∃ q ∈ spec_public_candidates m, q.1 = ca2) → False := by
      intro ⟨q, hq, hqeq⟩
      rw [hpc] at hq
      have hq1 : q.1 ≤ address := hqeq ▸ hmem.2
      have hca : (export_scan address m.exports (.nullMatch, 0)).2 ≤ q.1 := by
        rw [hs1eq, hqeq]
      have hnn : (export_scan address m.exports (.nullMatch, 0)).1.is_none = false := by
        rw [hs1eq]
        rfl
      obtain ⟨n, hn⟩ := p6 hnn q hq hq1 hca
      cases hn
    refine ⟨⟨fun h => ?_, fun hall => ?_⟩, ?_⟩
    · rw [hsome] at h
      cases h
    · exact absurd hmem.2 (hall (ca2, e.to_string) (hcands ▸ List.mem_append_left _ hmem.1))
    · intro s hs
      rw [hsome] at hs
      refine ⟨(ca2, e.to_string),
        hcands ▸ List.mem_append_left _ hmem.1, hmem.2, hmax,
        fun h => absurd h htie, ?_⟩
      cases hs
      rfl
  | publicMatch n =>
    have hsome : resolve_in_module address m
        = some (format_sym m.name n (address - ca2)) := hres.trans rfl
    have hmem : (ca2, n) ∈ spec_public_cands m.address (visible_syms m) ∧ ca2 ≤ address := by
      rcases p1 with h | ⟨n', h1, h2, h3⟩
      · -- the export scan cannot produce a public match
        exfalso
        have hfst := congrArg Prod.fst h
        rcases e1 with h0 | ⟨e', h1', _, _⟩
        · rw [h0] at hfst
          simp at hfst
        · rw [h1'] at hfst
          simp at hfst
      · simp only at h1 h2 h3
        injection h1 with hn
        rw [← hn] at h2
        exact ⟨h2, h3⟩
    have hmax : ∀ q ∈ spec_candidates m, q.1 ≤ address → q.1 ≤ ca2 := by
      intro q hq hqle
      rw [hcands] at hq
      rcases List.mem_append.mp hq with hq | hq
      · obtain ⟨hnn, hle⟩ := e2 q hq hqle
        obtain ⟨_, hle2⟩ := p4 hnn
        exact le_trans hle hle2
      · obtain ⟨_, hle⟩ := p2 q hq hqle
        exact hle
    refine ⟨⟨fun h => ?_, fun hall => ?_⟩, ?_⟩
    · rw [hsome] at h
      cases h
    · exact absurd hmem.2
        (hall (ca2, n) (hcands ▸ List.mem_append_right _ hmem.1))
    · intro s hs
      rw [hsome] at hs
      refine ⟨(ca2, n),
        hcands ▸ List.mem_append_right _ hmem.1, hmem.2, hmax,
        fun _ => hpc ▸ hmem.1, ?_⟩
      cases hs
      rfl

/-- C7: address-to-name resolution returns no name exactly when no module
contains the query or no candidate (direct-RVA export or PDB PUBLIC
function symbol) lies at or below it; otherwise it formats
`module!symbol` (or `module!symbol+0xOFFSET`) from a candidate of
maximal address among those at or below the query, and whenever a PDB
candidate attains that address the chosen candidate is a PDB one. -/

theorem resolve_address_to_name_spec (address : Nat) (p : Process) :
    (resolve_address_to_name address p = none ↔
      (get_containing_module p address = none
        ∨ ∃ m, get_containing_module p address = some m
            ∧ ∀ q ∈ spec_candidates m, ¬ q.1 ≤ address))
    ∧ (∀ s, resolve_address_to_name address p = some s →
        ∃ m c, get_containing_module p address = some m
          ∧ c ∈ spec_candidates m
          ∧ c.1 ≤ address
          ∧ (∀ q ∈ spec_candidates m, q.1 ≤ address → q.1 ≤ c.1)
          ∧ ((∃ q ∈ spec_public_candidates m, q.1 = c.1) → c ∈ spec_public_candidates m)
          ∧ s = format_sym m.name c.2 (address - c.1)) := by
  rcases hm : get_containing_module p address with _ | m
  · have hr : resolve_address_to_name address p = none := by
      simp [resolve_address_to_name, hm]
    refine ⟨⟨fun _ => Or.inl rfl, fun _ => hr⟩, ?_⟩
    intro s hs
    rw [hr] at hs
    cases hs
  · have hr : resolve_address_to_name address p = resolve_in_module address m := by
      simp [resolve_address_to_name, hm]
    obtain ⟨h1, h2⟩ := resolve_in_module_props address m
    constructor
    · constructor
      · intro h
        rw [hr] at h
        exact Or.inr ⟨m, rfl, h1.mp h⟩
      · intro h
        rw [hr]
        apply h1.mpr
        rcases h with h | ⟨m', hm', hall⟩
        · cases h
        · injection hm' with he
          rw [he]
          exact hall
    · intro s hs
      rw [hr] at hs
      obtain ⟨c, hmem, hle, hmax, htie, hfmt⟩ := h2 s hs
      exact ⟨m, c, rfl, hmem, hle, hmax, htie, hfmt⟩

/-- Witness for C7: querying five bytes past the shared export/PDB address
yields the PDB name with the `+0x5` suffix, via the theorem itself. -/

theorem resolve_address_to_name_spec_witness :
    ∃ m c, get_containing_module hello_process 0x140001005 = some m
      ∧ c ∈ spec_candidates m
      ∧ c.1 ≤ 0x140001005
      ∧ (∀ q ∈ spec_candidates m, q.1 ≤ 0x140001005 → q.1 ≤ c.1)
      ∧ ((∃ q ∈ spec_public_candidates m, q.1 = c.1) → c ∈ spec_public_candidates m)
      ∧ "hello!pmain+0x5" = format_sym m.name c.2 (0x140001005 - c.1) :=
  (resolve_address_to_name_spec 0x140001005 hello_process).2 "hello!pmain+0x5" rfl

/-- The unrecognized-op rejection of the slot decoder, one step unfolded:
when the 4-bit op field of the head slot is outside the decoding table,
the decoder fails regardless of fuel and remaining slots. -/
theorem get_unwind_ops_fuel_cons_unknown (fuel slot : Nat) (rest : List Nat)
    (h0 : slot / 256 % 16 ≠ 0) (h1 : slot / 256 % 16 ≠ 1) (h2 : slot / 256 % 16 ≠ 2)
    (h3 : slot / 256 % 16 ≠ 3) (h4 : slot / 256 % 16 ≠ 4) (h5 : slot / 256 % 16 ≠ 5)
    (h8 : slot / 256 % 16 ≠ 8) (h9 : slot / 256 % 16 ≠ 9) :
    get_unwind_ops_fuel (fuel + 1) (slot :: rest) = .error "Unrecognized unwind op" := by
  show (if slot / 256 % 16 = 0 then
      (get_unwind_ops_fuel fuel rest).map
        (⟨slot % 256, .PushNonVolatile (slot / 4096 % 16)⟩ :: ·)
    else if slot / 256 % 16 = 1 then
      if slot / 4096 % 16 = 0 then
        match rest with
        | [] => .error "UWOP_ALLOC_LARGE was incomplete"
        | n1 :: rest1 =>
          (get_unwind_ops_fuel fuel rest1).map (⟨slot % 256, .Alloc (n1 * 8)⟩ :: ·)
      else if slot / 4096 % 16 = 1 then
        match rest with
        | n1 :: n2 :: rest2 =>
          (get_unwind_ops_fuel fuel rest2).map (⟨slot % 256, .Alloc (n1 + n2 * 65536)⟩ :: ·)
        | _ => .error "UWOP_ALLOC_LARGE was incomplete"
      else .error "Unrecognized unwind op"
    else if slot / 256 % 16 = 2 then
      (get_unwind_ops_fuel fuel rest).map (⟨slot % 256, .Alloc (slot / 4096 % 16 * 8 + 8)⟩ :: ·)
    else if slot / 256 % 16 = 3 then
      (get_unwind_ops_fuel fuel rest).map (⟨slot % 256, .SetFpreg⟩ :: ·)
    else if slot / 256 % 16 = 4 then
      match rest with
      | [] => .error "UWOP_SAVE_NONVOL was incomplete"
      | n1 :: rest1 =>
        (get_unwind_ops_fuel fuel rest1).map
          (⟨slot % 256, .SaveNonVolatile (slot / 4096 % 16) n1⟩ :: ·)
    else if slot / 256 % 16 = 5 then
      match rest with
      | n1 :: n2 :: rest2 =>
        (get_unwind_ops_fuel fuel rest2).map
          (⟨slot % 256, .SaveNonVolatile (slot / 4096 % 16) (n1 + n2 * 65536)⟩ :: ·)
      | _ => .error "UWOP_SAVE_NONVOL_FAR was incomplete"
    else if slot / 256 % 16 = 8 then
      match rest with
      | [] => .error "UWOP_SAVE_XMM128 was incomplete"
      | n1 :: rest1 =>
        (get_unwind_ops_fuel fuel rest1).map
          (⟨slot % 256, .SaveXmm128 (slot / 4096 % 16) n1⟩ :: ·)
    else if slot / 256 % 16 = 9 then
      match rest with
      | n1 :: n2 :: rest2 =>
        (get_unwind_ops_fuel fuel rest2).map
          (⟨slot % 256, .SaveXmm128 (slot / 4096 % 16) (n1 + n2 * 65536)⟩ :: ·)
      | _ => .error "UWOP_SAVE_XMM128_FAR was incomplete"
    else (.error "Unrecognized unwind op" : Except String (List UnwindCode)))
      = .error "Unrecognized unwind op"
  simp [h0, h1, h2, h3, h4, h5, h8, h9]

/-- C8 counterexample: the claim says applying a successfully decoded
unwind-op list never aborts and that SetFpreg ops inside the executed
prolog are ignored.  In fact slot `0x0300` decodes successfully to a
`SetFpreg` at code offset 0, and applying it hits
`panic!("NYI unwind op")`. -/
theorem apply_unwind_ops_nyi_panic_counterexample :
    get_unwind_ops [0x0300] = .ok [⟨0, .SetFpreg⟩]
    ∧ apply_unwind_ops CONTEXT.zero [⟨0, .SetFpreg⟩] 0 failing_stack_memory
        = .panic "NYI unwind op" := ⟨rfl, rfl⟩

/-- C8 amended: applying a decoded list aborts with the
"NYI unwind op" panic as soon as it reaches a SetFpreg, SaveXmm128 or
PushMachFrame op whose code offset lies within the executed prolog
(rather than ignoring it); PUSH_MACHFRAME and every op code outside the
decoding table ({0,1,2,3,4,5,8,9}) are rejected with "Unrecognized
unwind op" during decoding. -/
theorem apply_unwind_ops_nyi_amended (ctx : CONTEXT) (u : UnwindCode)
    (rest : List UnwindCode) (fa : Nat) (mem : StackMemory)
    (hop : u.op = .SetFpreg ∨ (∃ r o, u.op = .SaveXmm128 r o)
      ∨ (∃ b, u.op = .PushMachFrame b))
    (hco : u.code_offset ≤ wsub ctx.rip fa) :
    apply_unwind_ops ctx (u :: rest) fa mem = .panic "NYI unwind op"
    ∧ (∀ slot rest2, slot / 256 % 16 ∉ ([0, 1, 2, 3, 4, 5, 8, 9] : List Nat) →
        get_unwind_ops (slot :: rest2) = .error "Unrecognized unwind op") := by
  constructor
  · obtain ⟨co, op⟩ := u
    have hif : (if co ≤ wsub ctx.rip fa then RunResult.panic "NYI unwind op"
        else apply_unwind_ops_go fa mem ctx rest) = RunResult.panic "NYI unwind op" :=
      if_pos hco
    rcases hop with h | ⟨r, o, h⟩ | ⟨b, h⟩ <;> subst h <;> exact hif
  · intro slot rest2 hns
    simp only [List.mem_cons, List.not_mem_nil, or_false, not_or] at hns
    obtain ⟨h0, h1, h2, h3, h4, h5, h8, h9⟩ := hns
    show get_unwind_ops_fuel (rest2.length + 1) (slot :: rest2)
      = .error "Unrecognized unwind op"
    exact get_unwind_ops_fuel_cons_unknown rest2.length slot rest2 h0 h1 h2 h3 h4 h5 h8 h9

/-- Witness for C8's amended theorem at a concrete SetFpreg op. -/
theorem apply_unwind_ops_nyi_amended_witness :
    apply_unwind_ops CONTEXT.zero [⟨0, .SetFpreg⟩] 0 failing_stack_memory
      = .panic "NYI unwind op" :=
  (apply_unwind_ops_nyi_amended CONTEXT.zero ⟨0, .SetFpreg⟩ [] 0 failing_stack_memory
    (Or.inl rfl) (Nat.zero_le _)).1

/-- C5 counterexample: the claim says that when the module containing Rip
has no exception directory the frame is unwound as a leaf
(`NewRip = *Rsp`, `NewRsp = Rsp + 8`).  In fact `unwind_context` returns
end-of-stack (`Ok(None)`) there, even though the 8 bytes at [Rsp] are
readable (every `readU64` of this memory yields 0x77). -/
theorem unwind_context_no_directory_counterexample :
    unwind_context noexc_process { CONTEXT.zero with rip := 0x1500, rsp := 0x2000 }
        readable_stack_memory = .ok none
    ∧ readable_stack_memory.readU64 0x2000 = .ok 0x77 := ⟨rfl, rfl⟩

/-- C5 amended: when the module containing Rip has a zero exception data
directory, `unwind_context` reports end-of-stack (None); the leaf
behaviour — NewRip read from [Rsp], NewRsp = Rsp + 8 — applies when the
module has an exception directory whose RUNTIME_FUNCTION table contains
no entry covering Rip's RVA. -/
theorem unwind_context_leaf_amended (p : Process) (ctx : CONTEXT) (mem : StackMemory)
    (m : Module) (hm : get_containing_module p ctx.rip = some m) :
    ((m.get_data_directory IMAGE_DIRECTORY_ENTRY_EXCEPTION).VirtualAddress = 0
      ∨ (m.get_data_directory IMAGE_DIRECTORY_ENTRY_EXCEPTION).Size = 0 →
      unwind_context p ctx mem = .ok none)
    ∧ (∀ functions ra,
        (m.get_data_directory IMAGE_DIRECTORY_ENTRY_EXCEPTION).VirtualAddress ≠ 0 →
        (m.get_data_directory IMAGE_DIRECTORY_ENTRY_EXCEPTION).Size ≠ 0 →
        mem.readRuntimeFunctionArray
            (m.address + (m.get_data_directory IMAGE_DIRECTORY_ENTRY_EXCEPTION).VirtualAddress)
            ((m.get_data_directory IMAGE_DIRECTORY_ENTRY_EXCEPTION).Size / 12)
          = .ok functions →
        find_runtime_function (wsub ctx.rip m.address % 2 ^ 32) functions = none →
        mem.readU64 ctx.rsp = .ok ra →
        unwind_context p ctx mem
          = .ok (some { ctx with rip := ra, rsp := wadd ctx.rsp 8 })) := by
  constructor
  · intro h
    have hcond : ¬ ((m.get_data_directory IMAGE_DIRECTORY_ENTRY_EXCEPTION).VirtualAddress ≠ 0
        ∧ (m.get_data_directory IMAGE_DIRECTORY_ENTRY_EXCEPTION).Size ≠ 0) := by
      rcases h with h | h <;> simp [h]
    simp [unwind_context, hm, hcond]
  · intro functions ra hva hsz hread hfind hru
    have hfind2 : find_runtime_function (wsub ctx.rip m.address % 4294967296) functions
        = none := hfind
    simp [unwind_context, hm, hva, hsz, hread, hfind2, hru]

/-- Witness for C5's amended theorem: the exception directory is present,
the single RUNTIME_FUNCTION misses the query RVA, and the leaf unwind
reads 0xBEEF from [Rsp]. -/
theorem unwind_context_leaf_amended_witness :
    unwind_context exc_process { CONTEXT.zero with rip := 0x1500, rsp := 0x2000 } exc_memory
      = .ok (some { CONTEXT.zero with rip := 0xBEEF, rsp := 0x2008 }) := by
  have h := (unwind_context_leaf_amended exc_process
      { CONTEXT.zero with rip := 0x1500, rsp := 0x2000 } exc_memory exc_module rfl).2
      [⟨0x2000, 0x2010, 0x40⟩] 0xBEEF (by decide) (by decide) (by rfl) (by rfl) (by rfl)
  exact h.trans (by rfl)

/-- Restoring a register to the value it already holds is the identity
(the registers of `{ctx0 with rip, rsp}` agree with `ctx0` except Rsp,
which is excluded). -/
theorem set_op_register_restore (ctx0 : CONTEXT) (rip x reg : Nat)
    (h16 : reg < 16) (h4 : reg ≠ 4) :
    set_op_register { ctx0 with rip := rip, rsp := x } reg (get_op_register_val ctx0 reg)
      = .ok { ctx0 with rip := rip, rsp := x } := by
  interval_cases reg <;> first | rfl | exact absurd rfl h4

/-- The forward Rsp stays below `2^64`. -/
theorem exec_rsp_lt (fo : Nat) (l : List UnwindCode) (rsp0 : Nat) (h : rsp0 < W64) :
    exec_rsp fo l rsp0 < W64 := by
  induction l with
  | nil => exact h
  | cons u rest ih =>
    by_cases hco : u.code_offset ≤ fo
    · cases hop : u.op <;> simp [exec_rsp, hco, hop] <;>
        first | exact wsub_lt _ _ | exact ih
    · simp [exec_rsp, hco]
      exact ih

/-- One step of the unwinder on an applied push op. -/
theorem apply_go_push_r (fa rip s : Nat) (mem : StackMemory) (ctx0 : CONTEXT)
    (co reg : Nat) (rest : List UnwindCode) (hco : co ≤ wsub rip fa) (v : Nat)
    (hread : mem.readU64 s = .ok v) :
    apply_unwind_ops_go fa mem { ctx0 with rip := rip, rsp := s }
        (⟨co, .PushNonVolatile reg⟩ :: rest)
      = (set_op_register { ctx0 with rip := rip, rsp := wadd s 8 } reg v).bind
          (fun c => apply_unwind_ops_go fa mem c rest) := by
  show (if co ≤ wsub rip fa then
      match mem.readU64 s with
      | .error e => RunResult.err e
      | .ok val =>
        (set_op_register { ctx0 with rip := rip, rsp := wadd s 8 } reg val).bind
          fun c => apply_unwind_ops_go fa mem c rest
    else apply_unwind_ops_go fa mem { ctx0 with rip := rip, rsp := s } rest)
    = (set_op_register { ctx0 with rip := rip, rsp := wadd s 8 } reg v).bind
        (fun c => apply_unwind_ops_go fa mem c rest)
  rw [if_pos hco, hread]

/-- One step of the unwinder on an applied allocation op. -/
theorem apply_go_alloc_r (fa rip s : Nat) (mem : StackMemory) (ctx0 : CONTEXT)
    (co size : Nat) (rest : List UnwindCode) (hco : co ≤ wsub rip fa) :
    apply_unwind_ops_go fa mem { ctx0 with rip := rip, rsp := s }
        (⟨co, .Alloc size⟩ :: rest)
      = apply_unwind_ops_go fa mem { ctx0 with rip := rip, rsp := wadd s size } rest := by
  show (if co ≤ wsub rip fa then
      apply_unwind_ops_go fa mem { ctx0 with rip := rip, rsp := wadd s size } rest
    else apply_unwind_ops_go fa mem { ctx0 with rip := rip, rsp := s } rest)
    = apply_unwind_ops_go fa mem { ctx0 with rip := rip, rsp := wadd s size } rest
  rw [if_pos hco]

/-- One step of the unwinder on an applied register-save op. -/
theorem apply_go_save_r (fa rip s : Nat) (mem : StackMemory) (ctx0 : CONTEXT)
    (co reg offset : Nat) (rest : List UnwindCode) (hco : co ≤ wsub rip fa) (v : Nat)
    (hread : mem.readU64 (wadd s offset) = .ok v) :
    apply_unwind_ops_go fa mem { ctx0 with rip := rip, rsp := s }
        (⟨co, .SaveNonVolatile reg offset⟩ :: rest)
      = (set_op_register { ctx0 with rip := rip, rsp := s } reg v).bind
          (fun c => apply_unwind_ops_go fa mem c rest) := by
  show (if co ≤ wsub rip fa then
      match mem.readU64 (wadd s offset) with
      | .error e => RunResult.err e
      | .ok val =>
        (set_op_register { ctx0 with rip := rip, rsp := s } reg val).bind
          fun c => apply_unwind_ops_go fa mem c rest
    else apply_unwind_ops_go fa mem { ctx0 with rip := rip, rsp := s } rest)
    = (set_op_register { ctx0 with rip := rip, rsp := s } reg v).bind
        (fun c => apply_unwind_ops_go fa mem c rest)
  rw [if_pos hco, hread]

/-- The unwinder skips an op whose code offset lies beyond the executed
prolog. -/
theorem apply_go_skip (fa : Nat) (mem : StackMemory) (ctx : CONTEXT) (u : UnwindCode)
    (rest : List UnwindCode) (hco : ¬ u.code_offset ≤ wsub ctx.rip fa) :
    apply_unwind_ops_go fa mem ctx (u :: rest) = apply_unwind_ops_go fa mem ctx rest := by
  obtain ⟨co, op⟩ := u
  cases op <;> exact if_neg hco

/-- A fold of stores leaves an address outside the write set unchanged. -/
theorem foldl_mem_write_not_mem (a : Nat) :
    ∀ (ws : List (Nat × Nat)) (m0 : Nat → Except String Nat),
      a ∉ ws.map Prod.fst →
      ws.foldl (fun m w => mem_write m w.1 w.2) m0 a = m0 a := by
  intro ws
  induction ws with
  | nil => intro m0 _; rfl
  | cons w ws ih =>
    intro m0 ha
    simp only [List.map_cons, List.mem_cons, not_or] at ha
    rw [List.foldl_cons, ih _ ha.2]
    simp [mem_write, ha.1]

/-- With pairwise distinct write addresses, a fold of stores holds each
written value at its address. -/
theorem foldl_mem_write_lookup :
    ∀ (ws : List (Nat × Nat)) (m0 : Nat → Except String Nat) (a v : Nat),
      (a, v) ∈ ws → (ws.map Prod.fst).Nodup →
      ws.foldl (fun m w => mem_write m w.1 w.2) m0 a = .ok v := by
  intro ws
  induction ws with
  | nil => intro m0 a v h _; cases h
  | cons w ws ih =>
    intro m0 a v hmem hnd
    simp only [List.map_cons, List.nodup_cons] at hnd
    rw [List.foldl_cons]
    rcases List.mem_cons.mp hmem with h | h
    · have ha : a = w.1 := congrArg Prod.fst h
      have hv : v = w.2 := congrArg Prod.snd h
      have hnot : a ∉ ws.map Prod.fst := by rw [ha]; exact hnd.1
      rw [foldl_mem_write_not_mem a ws _ hnot]
      simp [mem_write, ha, hv]
    · exact ih _ a v h hnd.2

/-- If the memory holds every forward write, the unwinder's reads all
succeed with the stored values. -/
theorem reads_ok_of_writes (ctx0 : CONTEXT) (M : Nat → Except String Nat) (fo : Nat) :
    ∀ (l : List UnwindCode) (rsp0 : Nat),
      (∀ w ∈ exec_writes fo ctx0 l rsp0, M w.1 = .ok w.2) →
      reads_ok ctx0 M fo l rsp0 := by
  intro l
  induction l with
  | nil => intro rsp0 _; trivial
  | cons u rest ih =>
    obtain ⟨co, op⟩ := u
    intro rsp0 hM
    have hsub : ∀ w ∈ exec_writes fo ctx0 rest rsp0, M w.1 = .ok w.2 := by
      intro w hw
      apply hM
      cases op with
      | PushNonVolatile reg =>
        have he : exec_writes fo ctx0 (⟨co, .PushNonVolatile reg⟩ :: rest) rsp0
            = if co ≤ fo then
                exec_writes fo ctx0 rest rsp0
                  ++ [(wsub (exec_rsp fo rest rsp0) 8, get_op_register_val ctx0 reg)]
              else exec_writes fo ctx0 rest rsp0 := rfl
        rw [he]
        split
        · exact List.mem_append_left _ hw
        · exact hw
      | SaveNonVolatile reg offset =>
        have he : exec_writes fo ctx0 (⟨co, .SaveNonVolatile reg offset⟩ :: rest) rsp0
            = if co ≤ fo then
                exec_writes fo ctx0 rest rsp0
                  ++ [(wadd (exec_rsp fo rest rsp0) offset, get_op_register_val ctx0 reg)]
              else exec_writes fo ctx0 rest rsp0 := rfl
        rw [he]
        split
        · exact List.mem_append_left _ hw
        · exact hw
      | Alloc size =>
        have he : exec_writes fo ctx0 (⟨co, .Alloc size⟩ :: rest) rsp0
            = if co ≤ fo then exec_writes fo ctx0 rest rsp0
              else exec_writes fo ctx0 rest rsp0 := rfl
        rw [he]
        split <;> exact hw
      | SetFpreg =>
        have he : exec_writes fo ctx0 (⟨co, .SetFpreg⟩ :: rest) rsp0
            = if co ≤ fo then exec_writes fo ctx0 rest rsp0
              else exec_writes fo ctx0 rest rsp0 := rfl
        rw [he]
        split <;> exact hw
      | SaveXmm128 reg offset =>
        have he : exec_writes fo ctx0 (⟨co, .SaveXmm128 reg offset⟩ :: rest) rsp0
            = if co ≤ fo then exec_writes fo ctx0 rest rsp0
              else exec_writes fo ctx0 rest rsp0 := rfl
        rw [he]
        split <;> exact hw
      | PushMachFrame b =>
        have he : exec_writes fo ctx0 (⟨co, .PushMachFrame b⟩ :: rest) rsp0
            = if co ≤ fo then exec_writes fo ctx0 rest rsp0
              else exec_writes fo ctx0 rest rsp0 := rfl
        rw [he]
        split <;> exact hw
    refine ⟨ih rsp0 hsub, ?_⟩
    intro hco
    cases op with
    | PushNonVolatile reg =>
      show M (wsub (exec_rsp fo rest rsp0) 8) = .ok (get_op_register_val ctx0 reg)
      have hm2 : (wsub (exec_rsp fo rest rsp0) 8, get_op_register_val ctx0 reg)
          ∈ exec_writes fo ctx0 (⟨co, .PushNonVolatile reg⟩ :: rest) rsp0 := by
        have he : exec_writes fo ctx0 (⟨co, .PushNonVolatile reg⟩ :: rest) rsp0
            = if co ≤ fo then
                exec_writes fo ctx0 rest rsp0
                  ++ [(wsub (exec_rsp fo rest rsp0) 8, get_op_register_val ctx0 reg)]
              else exec_writes fo ctx0 rest rsp0 := rfl
        rw [he, if_pos hco]
        exact List.mem_append_right _ (List.mem_singleton.mpr rfl)
      exact hM (wsub (exec_rsp fo rest rsp0) 8, get_op_register_val ctx0 reg) hm2
    | SaveNonVolatile reg offset =>
      show M (wadd (exec_rsp fo rest rsp0) offset) = .ok (get_op_register_val ctx0 reg)
      have hm2 : (wadd (exec_rsp fo rest rsp0) offset, get_op_register_val ctx0 reg)
          ∈ exec_writes fo ctx0 (⟨co, .SaveNonVolatile reg offset⟩ :: rest) rsp0 := by
        have he : exec_writes fo ctx0 (⟨co, .SaveNonVolatile reg offset⟩ :: rest) rsp0
            = if co ≤ fo then
                exec_writes fo ctx0 rest rsp0
                  ++ [(wadd (exec_rsp fo rest rsp0) offset, get_op_register_val ctx0 reg)]
              else exec_writes fo ctx0 rest rsp0 := rfl
        rw [he, if_pos hco]
        exact List.mem_append_right _ (List.mem_singleton.mpr rfl)
      exact hM (wadd (exec_rsp fo rest rsp0) offset, get_op_register_val ctx0 reg) hm2
    | Alloc size => trivial
    | SetFpreg => trivial
    | SaveXmm128 reg offset => trivial
    | PushMachFrame b => trivial

/-- The unwinder inverts the forward prolog execution: starting from the
post-prolog Rsp and the post-prolog memory contents, applying the decoded
ops recovers the pre-prolog Rsp and registers exactly. -/
theorem apply_unwind_ops_go_inverts (fa rip : Nat) (mem : StackMemory) (ctx0 : CONTEXT) :
    ∀ (ops : List UnwindCode) (rsp0 : Nat),
      (∀ u ∈ ops, op_ok u.op) → rsp0 < W64 →
      reads_ok ctx0 mem.readU64 (wsub rip fa) ops rsp0 →
      apply_unwind_ops_go fa mem
          { ctx0 with rip := rip, rsp := exec_rsp (wsub rip fa) ops rsp0 } ops
        = .ok (some { ctx0 with rip := rip, rsp := rsp0 }) := by
  intro ops
  induction ops with
  | nil =>
    intro rsp0 _ _ _
    rfl
  | cons u rest ih =>
    obtain ⟨co, op⟩ := u
    intro rsp0 hok hrsp hreads
    have hokh := hok _ (List.mem_cons_self _ _)
    have hokt : ∀ v ∈ rest, op_ok v.op := fun v hv => hok v (List.mem_cons_of_mem _ hv)
    obtain ⟨hreads_t, hreads_h⟩ := hreads
    have hr1 : exec_rsp (wsub rip fa) rest rsp0 < W64 := exec_rsp_lt _ _ _ hrsp
    by_cases hco : co ≤ wsub rip fa
    · cases op with
      | PushNonVolatile reg =>
        obtain ⟨h16, h4⟩ := hokh
        have hex : exec_rsp (wsub rip fa) (⟨co, .PushNonVolatile reg⟩ :: rest) rsp0
            = wsub (exec_rsp (wsub rip fa) rest rsp0) 8 := by
          simp [exec_rsp, hco]
        rw [hex, apply_go_push_r fa rip _ mem ctx0 co reg rest hco _ (hreads_h hco),
          wadd_wsub_cancel _ 8 hr1 (by decide),
          set_op_register_restore ctx0 rip _ reg h16 h4]
        exact ih rsp0 hokt hrsp hreads_t
      | Alloc size =>
        have hex : exec_rsp (wsub rip fa) (⟨co, .Alloc size⟩ :: rest) rsp0
            = wsub (exec_rsp (wsub rip fa) rest rsp0) size := by
          simp [exec_rsp, hco]
        rw [hex, apply_go_alloc_r fa rip _ mem ctx0 co size rest hco,
          wadd_wsub_cancel _ size hr1 hokh]
        exact ih rsp0 hokt hrsp hreads_t
      | SaveNonVolatile reg offset =>
        obtain ⟨h16, h4⟩ := hokh
        have hex : exec_rsp (wsub rip fa) (⟨co, .SaveNonVolatile reg offset⟩ :: rest) rsp0
            = exec_rsp (wsub rip fa) rest rsp0 := by
          simp [exec_rsp, hco]
        rw [hex, apply_go_save_r fa rip _ mem ctx0 co reg offset rest hco _ (hreads_h hco),
          set_op_register_restore ctx0 rip _ reg h16 h4]
        exact ih rsp0 hokt hrsp hreads_t
      | SetFpreg => exact hokh.elim
      | SaveXmm128 reg offset => exact hokh.elim
      | PushMachFrame b => exact hokh.elim
    · have hex : exec_rsp (wsub rip fa) (⟨co, op⟩ :: rest) rsp0
          = exec_rsp (wsub rip fa) rest rsp0 := by
        simp [exec_rsp, hco]
      rw [hex, apply_go_skip fa mem _ ⟨co, op⟩ rest hco]
      exact ih rsp0 hokt hrsp hreads_t

/-- C1: virtual execution of the unwind ops inverts the prolog.  Running
the reference forward interpreter (which executes exactly the ops with
`codeOffset ≤ funcOffset = Rip − funcStart`, in prolog order) from
`ctx0` yields the post-prolog state `(exec_rsp …, exec_mem …)`; applying
`apply_unwind_ops` to that state — Alloc adding its size to Rsp,
PushNonVolatile loading 8 bytes from [Rsp] and adding 8,
SaveNonVolatile loading from [Rsp + offset] without moving Rsp — returns
exactly the pre-prolog context (same Rsp, same saved registers), and the
8 bytes at the recovered Rsp still hold the return address `ra`, so the
subsequent `NewRip = *Rsp; NewRsp = Rsp + 8` step of `unwind_context`
yields `ra` and `Rsp + 8`.  Side conditions: ops are the three
materialized kinds with GPR targets other than Rsp, the write addresses
of the prolog are pairwise distinct, and the return-address slot is not
overwritten by the prolog. -/
theorem apply_unwind_ops_inverts_prolog (ops : List UnwindCode) (fa rip : Nat)
    (ctx0 : CONTEXT) (m0 : Nat → Except String Nat) (ra : Nat)
    (hops : ∀ u ∈ ops, op_ok u.op)
    (hrsp : ctx0.rsp < W64)
    (hnd : ((exec_writes (wsub rip fa) ctx0 ops ctx0.rsp).map Prod.fst).Nodup)
    (hret : ctx0.rsp ∉ (exec_writes (wsub rip fa) ctx0 ops ctx0.rsp).map Prod.fst)
    (hra : m0 ctx0.rsp = .ok ra) :
    apply_unwind_ops
        { ctx0 with rip := rip, rsp := exec_rsp (wsub rip fa) ops ctx0.rsp }
        ops fa (stack_memory_of (exec_mem (wsub rip fa) ctx0 ops ctx0.rsp m0))
      = .ok (some { ctx0 with rip := rip })
    ∧ exec_mem (wsub rip fa) ctx0 ops ctx0.rsp m0 ctx0.rsp = .ok ra := by
  constructor
  · have hM : ∀ w ∈ exec_writes (wsub rip fa) ctx0 ops ctx0.rsp,
        exec_mem (wsub rip fa) ctx0 ops ctx0.rsp m0 w.1 = .ok w.2 := by
      intro w hw
      exact foldl_mem_write_lookup _ m0 w.1 w.2
        (by rw [show ((w.1, w.2) : Nat × Nat) = w from rfl]; exact hw) hnd
    have hro := reads_ok_of_writes ctx0
      (exec_mem (wsub rip fa) ctx0 ops ctx0.rsp m0) (wsub rip fa) ops ctx0.rsp hM
    exact apply_unwind_ops_go_inverts fa rip
      (stack_memory_of (exec_mem (wsub rip fa) ctx0 ops ctx0.rsp m0)) ctx0 ops ctx0.rsp
      hops hrsp hro
  · exact (foldl_mem_write_not_mem ctx0.rsp _ m0 hret).trans hra

/-- Witness for C1 on the prolog `push rbp; sub rsp, 0x30` with Rip six
bytes into the function: the unwinder recovers Rsp = 0x1000 and
Rbp = 0xAA, and the return-address slot still holds 0xBEEF. -/
theorem apply_unwind_ops_inverts_prolog_witness :
    apply_unwind_ops
        { c1_ctx with rip := 0x4006, rsp := exec_rsp (wsub 0x4006 0x4000) c1_ops c1_ctx.rsp }
        c1_ops 0x4000
        (stack_memory_of (exec_mem (wsub 0x4006 0x4000) c1_ctx c1_ops c1_ctx.rsp c1_base_mem))
      = .ok (some { c1_ctx with rip := 0x4006 })
    ∧ exec_mem (wsub 0x4006 0x4000) c1_ctx c1_ops c1_ctx.rsp c1_base_mem c1_ctx.rsp
      = .ok 0xBEEF :=
  apply_unwind_ops_inverts_prolog c1_ops 0x4000 0x4006 c1_ctx c1_base_mem 0xBEEF
    (by
      intro u hu
      rcases List.mem_cons.mp hu with h | h
      · subst h
        exact (by decide : (0x30 : Nat) < W64)
      · rcases List.mem_cons.mp h with h | h
        · subst h
          exact ⟨by decide, by decide⟩
        · cases h)
    (by decide) (by decide) (by decide) rfl

/-- One round of the read loop (definitional unfolding). -/
theorem read_memory_go_succ (rpm : RpmOracle) (address len fuel offset : Nat)
    (data : List (Option Nat)) :
    read_memory_go rpm address len (fuel + 1) offset data =
      if offset < len then
        if (rpm (address + offset) (len - offset)).success = false then
          .err "ReadProcessMemory failed"
        else if len < offset + (rpm (address + offset) (len - offset)).bytes.length then
          .panic "index out of bounds"
        else
          read_memory_go rpm address len fuel
            (offset + max (rpm (address + offset) (len - offset)).bytes.length 1)
            (write_bytes data offset (rpm (address + offset) (len - offset)).bytes)
      else .ok data := rfl

/-- The readable run never exceeds the requested length. -/
theorem rpm_run_len_le (readable : Nat → Bool) :
    ∀ (l a : Nat), rpm_run_len readable a l ≤ l := by
  intro l
  induction l with
  | zero => intro a; exact Nat.le_refl 0
  | succ l ih =>
    intro a
    by_cases h : readable a
    · simp only [rpm_run_len, h, if_true]
      exact Nat.succ_le_succ (ih (a + 1))
    · simp [rpm_run_len, h]

/-- Every byte inside the readable run is readable. -/
theorem rpm_run_len_readable (readable : Nat → Bool) :
    ∀ (l a j : Nat), j < rpm_run_len readable a l → readable (a + j) = true := by
  intro l
  induction l with
  | zero =>
    intro a j h
    simp [rpm_run_len] at h
  | succ l ih =>
    intro a j h
    by_cases hr : readable a
    · simp only [rpm_run_len, hr, if_true] at h
      cases j with
      | zero => simpa using hr
      | succ j =>
        have : a + (j + 1) = (a + 1) + j := by omega
        rw [this]
        exact ih (a + 1) j (by omega)
    · simp [rpm_run_len, hr] at h

/-- The byte just past a short readable run is unreadable. -/
theorem rpm_run_len_stop (readable : Nat → Bool) :
    ∀ (l a : Nat), rpm_run_len readable a l < l →
      readable (a + rpm_run_len readable a l) = false := by
  intro l
  induction l with
  | zero => intro a h; omega
  | succ l ih =>
    intro a h
    by_cases hr : readable a
    · simp only [rpm_run_len, hr, if_true] at h ⊢
      have : a + (rpm_run_len readable (a + 1) l + 1) = (a + 1) + rpm_run_len readable (a + 1) l := by
        omega
      rw [this]
      exact ih (a + 1) (by omega)
    · simp [rpm_run_len, hr]

theorem write_bytes_length :
    ∀ (bytes : List Nat) (data : List (Option Nat)) (offset : Nat),
      (write_bytes data offset bytes).length = data.length := by
  intro bytes
  induction bytes with
  | nil => intro data offset; rfl
  | cons b rest ih =>
    intro data offset
    calc (write_bytes data offset (b :: rest)).length
        = (write_bytes (data.set offset (some b)) (offset + 1) rest).length := rfl
      _ = (data.set offset (some b)).length := ih _ _
      _ = data.length := List.length_set _ _ _

/-- Entries before the write window are untouched. -/
theorem write_bytes_getElem_lt :
    ∀ (bytes : List Nat) (data : List (Option Nat)) (offset i : Nat),
      i < offset → (write_bytes data offset bytes)[i]? = data[i]? := by
  intro bytes
  induction bytes with
  | nil => intro data offset i _; rfl
  | cons b rest ih =>
    intro data offset i hi
    calc (write_bytes data offset (b :: rest))[i]?
        = (write_bytes (data.set offset (some b)) (offset + 1) rest)[i]? := rfl
      _ = (data.set offset (some b))[i]? := ih _ _ _ (by omega)
      _ = data[i]? := List.getElem?_set_ne (by omega)

/-- Entries past the write window are untouched. -/
theorem write_bytes_getElem_ge :
    ∀ (bytes : List Nat) (data : List (Option Nat)) (offset i : Nat),
      offset + bytes.length ≤ i → (write_bytes data offset bytes)[i]? = data[i]? := by
  intro bytes
  induction bytes with
  | nil => intro data offset i _; rfl
  | cons b rest ih =>
    intro data offset i hi
    simp only [List.length_cons] at hi
    calc (write_bytes data offset (b :: rest))[i]?
        = (write_bytes (data.set offset (some b)) (offset + 1) rest)[i]? := rfl
      _ = (data.set offset (some b))[i]? := ih _ _ _ (by omega)
      _ = data[i]? := List.getElem?_set_ne (by omega)

/-- Entries inside the write window hold the written bytes. -/
theorem write_bytes_getElem_mid :
    ∀ (bytes : List Nat) (data : List (Option Nat)) (offset i : Nat),
      offset ≤ i → i < offset + bytes.length → i < data.length →
      (write_bytes data offset bytes)[i]? = some (some (bytes.getD (i - offset) 0)) := by
  intro bytes
  induction bytes with
  | nil =>
    intro data offset i h1 h2 _
    simp only [List.length_nil] at h2
    omega
  | cons b rest ih =>
    intro data offset i h1 h2 h3
    by_cases hi : i = offset
    · subst hi
      have hz : i - i = 0 := by omega
      rw [hz]
      calc (write_bytes data i (b :: rest))[i]?
          = (write_bytes (data.set i (some b)) (i + 1) rest)[i]? := rfl
        _ = (data.set i (some b))[i]? := write_bytes_getElem_lt rest _ _ _ (by omega)
        _ = some (some b) := List.getElem?_set_eq_of_lt _ h3
    · have h1' : offset + 1 ≤ i := by omega
      have heq : i - offset = (i - (offset + 1)) + 1 := by omega
      rw [heq]
      calc (write_bytes data offset (b :: rest))[i]?
          = (write_bytes (data.set offset (some b)) (offset + 1) rest)[i]? := rfl
        _ = some (some (rest.getD (i - (offset + 1)) 0)) := by
            apply ih _ (offset + 1) i h1'
            · simp only [List.length_cons] at h2; omega
            · rw [List.length_set]; exact h3

/-- Invariant-carrying induction over the read loop, for the
partial-success OS model: the loop never fails, preserves the buffer
length, and fills exactly the readable bytes. -/
theorem read_memory_go_partial (readable : Nat → Bool) (content : Nat → Nat)
    (address len : Nat) :
    ∀ (fuel offset : Nat) (data : List (Option Nat)),
      len - offset < fuel →
      data.length = len →
      (∀ i, offset ≤ i → data.getD i none = none) →
      (∀ i, i < offset →
        data.getD i none
          = if readable (address + i) = true then some (content (address + i)) else none) →
      ∃ d, read_memory_go (mk_partial_rpm readable content) address len fuel offset data
            = .ok d
        ∧ d.length = len
        ∧ ∀ i, i < len →
            d.getD i none
              = if readable (address + i) = true then some (content (address + i))
                else none := by
  intro fuel
  induction fuel with
  | zero =>
    intro offset data hfuel _ _ _
    exact absurd hfuel (by omega)
  | succ fuel ih =>
    intro offset data hfuel hlen hnone hdone
    rw [read_memory_go_succ]
    by_cases hoff : offset < len
    · rw [if_pos hoff]
      have h1 : ¬ ((mk_partial_rpm readable content (address + offset) (len - offset)).success
          = false) := by
        simp [mk_partial_rpm]
      rw [if_neg h1]
      have hkval : (mk_partial_rpm readable content (address + offset) (len - offset)).bytes.length
          = rpm_run_len readable (address + offset) (len - offset) := by
        simp [mk_partial_rpm]
      have hkle : (mk_partial_rpm readable content (address + offset) (len - offset)).bytes.length
          ≤ len - offset := by
        rw [hkval]; exact rpm_run_len_le readable _ _
      have h2 : ¬ (len < offset
          + (mk_partial_rpm readable content (address + offset) (len - offset)).bytes.length) := by
        omega
      rw [if_neg h2]
      apply ih
      · omega
      · rw [write_bytes_length, hlen]
      · -- past the new offset everything is still empty
        intro i hi
        rw [List.getD_eq_getElem?_getD, write_bytes_getElem_ge _ _ _ _ (by omega),
          ← List.getD_eq_getElem?_getD]
        exact hnone i (by omega)
      · -- below the new offset everything matches the per-byte picture
        intro i hi
        by_cases hlow : i < offset
        · rw [List.getD_eq_getElem?_getD, write_bytes_getElem_lt _ _ _ _ hlow,
            ← List.getD_eq_getElem?_getD]
          exact hdone i hlow
        · -- offset ≤ i < offset + max k 1
          have hge : offset ≤ i := by omega
          by_cases hk : (mk_partial_rpm readable content (address + offset)
              (len - offset)).bytes.length = 0
          · -- zero-byte read: the single skipped byte is unreadable
            have hi1 : i = offset := by omega
            subst hi1
            have hrun0 : rpm_run_len readable (address + i) (len - i) = 0 := by
              rw [← hkval]; exact hk
            have hstop : readable ((address + i) + rpm_run_len readable (address + i) (len - i))
                = false := rpm_run_len_stop readable _ _ (by omega)
            rw [hrun0, Nat.add_zero] at hstop
            rw [List.getD_eq_getElem?_getD, write_bytes_getElem_ge _ _ _ _ (by omega),
              ← List.getD_eq_getElem?_getD, hnone i (Nat.le_refl i), hstop]
            simp
          · -- inside the copied run: readable, and the byte is the content
            have hmid : i < offset
                + (mk_partial_rpm readable content (address + offset) (len - offset)).bytes.length := by
              omega
            have hread : readable (address + i) = true := by
              have := rpm_run_len_readable readable (len - offset) (address + offset) (i - offset)
                (by rw [← hkval]; omega)
              have harith : (address + offset) + (i - offset) = address + i := by omega
              rwa [harith] at this
            rw [List.getD_eq_getElem?_getD,
              write_bytes_getElem_mid _ _ _ _ hge hmid (by rw [hlen]; omega)]
            have hbyte : (mk_partial_rpm readable content (address + offset)
                (len - offset)).bytes.getD (i - offset) 0 = content (address + i) := by
              have hlt : i - offset < rpm_run_len readable (address + offset) (len - offset) := by
                rw [← hkval]; omega
              show ((List.range (rpm_run_len readable (address + offset) (len - offset))).map
                  (fun j => content ((address + offset) + j))).getD (i - offset) 0
                = content (address + i)
              rw [List.getD_eq_getElem?_getD, List.getElem?_map, List.getElem?_range hlt]
              have harith : (address + offset) + (i - offset) = address + i := by omega
              simp [harith]
            rw [hbyte, hread]
            simp
    · rw [if_neg hoff]
      exact ⟨data, rfl, hlen, fun i hi => hdone i (by omega)⟩

/-- C4 amended: `read_memory` produces one optional byte per requested
byte — present for readable bytes, absent for unreadable ones — only
under an OS model in which `ReadProcessMemory` reports partial reads as
success with a shortened count (zero-byte successes advance one byte at
a time); when the OS call instead reports outright failure, the whole
call returns `Err("ReadProcessMemory failed")` rather than a gap. -/
theorem read_memory_per_byte_amended :
    (∀ (readable : Nat → Bool) (content : Nat → Nat) (address len : Nat),
      ∃ d, read_memory (mk_partial_rpm readable content) address len = .ok d
        ∧ d.length = len
        ∧ ∀ i, i < len →
            d.getD i none
              = if readable (address + i) = true then some (content (address + i))
                else none)
    ∧ (∀ (rpm : RpmOracle) (address len : Nat), 0 < len →
        (rpm address len).success = false →
        read_memory rpm address len = .err "ReadProcessMemory failed") := by
  constructor
  · intro readable content address len
    apply read_memory_go_partial readable content address len (len + 1) 0
      (List.replicate len none)
    · omega
    · exact List.length_replicate len none
    · intro i _
      rw [List.getD_eq_getElem?_getD, List.getElem?_replicate]
      split <;> rfl
    · intro i hi
      omega
  · intro rpm address len hlen hfail
    have hfail2 : (rpm (address + 0) (len - 0)).success = false := hfail
    show read_memory_go rpm address len (len + 1) 0 (List.replicate len none)
      = .err "ReadProcessMemory failed"
    rw [read_memory_go_succ, if_pos hlen, if_pos hfail2]

/-- C4 counterexample: the claim says an unreadable byte never causes the
call to fail.  With the OS refusing the read (`ReadProcessMemory`
returning 0), `read_memory(0, 1)` returns `Err` instead of a one-entry
sequence with an absent byte. -/
theorem read_memory_err_counterexample :
    read_memory (fun _ _ => ⟨false, []⟩) 0 1 = .err "ReadProcessMemory failed" := rfl

/-- Witness for C4's amended theorem: three bytes with the middle one
unreadable give `[Some, None, Some]`, and a failing OS call gives the
error. -/
theorem read_memory_per_byte_amended_witness :
    (∃ d, read_memory (mk_partial_rpm (fun a => a != 11) (fun a => a + 100)) 10 3 = .ok d
      ∧ d.length = 3
      ∧ ∀ i, i < 3 →
          d.getD i none
            = if (fun a => a != 11) (10 + i) = true then some ((fun a => a + 100) (10 + i))
              else none)
    ∧ read_memory (fun _ _ => ⟨false, []⟩) 0 2 = .err "ReadProcessMemory failed" :=
  ⟨read_memory_per_byte_amended.1 (fun a => a != 11) (fun a => a + 100) 10 3,
   read_memory_per_byte_amended.2 (fun _ _ => ⟨false, []⟩) 0 2 (by decide) rfl⟩

/-- C3: a module-parse error at load time does NOT merely leave that
module absent while the session continues.  `Module::from_memory_view`
does return a recoverable error for a non-x86-64 machine field (0x14C,
i386), but `load_module_at_address` (main.rs) calls `.unwrap()` on
`add_module`'s result, so the whole debugger session panics on the
LoadDll event instead of continuing the debug loop. -/
theorem load_module_parse_error_panics_session :
    Module.from_memory_view 0x7FF800000000 none i386_view
      = .error "Unsupported machine architecture for module"
    ∧ load_module_at_address ⟨[], []⟩ i386_view 0x7FF800000000 none
      = .panic "Unsupported machine architecture for module" :=
  ⟨rfl, rfl⟩

end Dbgrs
